import Mathlib

/-!
Verification of the client-side utility layer of the db-general-construction
website (storage adapter, session/token module, validation module).

JavaScript values that can flow through JSON are modelled by the mutual
inductive type JsValue below; JavaScript strings are modelled as List Char.
JSON numbers are modelled as integers: every number the repository stores or
compares (timestamps, expiries, rule parameters) is an integer, and the
floating-point behaviour of exotic numbers is outside the model.  The
platform primitives the code calls (JSON.stringify, JSON.parse, btoa, atob,
localStorage, String.prototype.trim / split) are given executable models
faithful to their specified behaviour on the values the code produces.
-/

/-! ### Named constants for JSON's delimiter characters -/

/-- Character constant: opening curly brace (JSON object opener). -/
def lbrace : Char := Char.ofNat 123

/-- Character constant: closing curly brace (JSON object closer). -/
def rbrace : Char := Char.ofNat 125

/-- Character constant: double quote (JSON string delimiter). -/
def dquote : Char := Char.ofNat 34

/-- Character constant: backslash (JSON escape lead-in). -/
def bslash : Char := Char.ofNat 92

/-! ### The JavaScript/JSON value model -/

mutual
/-- A JavaScript value as far as the JSON layer of the repository can see it:
null, booleans, (integer) numbers, strings, arrays and plain objects.
undefined is modelled as the absence of a value (Option at use sites). -/
inductive JsValue where
  | null
  | bool (b : Bool)
  | num (n : Int)
  | str (s : List Char)
  | arr (xs : JsArr)
  | obj (fs : JsObj)
deriving DecidableEq

/-- The element list of a JavaScript array value. -/
inductive JsArr where
  | nil
  | cons (hd : JsValue) (tl : JsArr)
deriving DecidableEq

/-- The ordered property list of a JavaScript object value. -/
inductive JsObj where
  | nil
  | cons (key : List Char) (val : JsValue) (tl : JsObj)
deriving DecidableEq
end

/-- JavaScript truthiness of a value (undefined handled at use sites). -/
def jsTruthy : JsValue → Bool
  | .null => false
  | .bool b => b
  | .num n => n != 0
  | .str s => !s.isEmpty
  | .arr _ => true
  | .obj _ => true

/-- Property lookup in an object's property list (objects built by this code
have unique keys, so first match is the match). -/
def objGet : JsObj → List Char → Option JsValue
  | .nil, _ => none
  | .cons k v tl, key => if k = key then some v else objGet tl key

/-- Property read on an arbitrary value: only objects have own data
properties here; every other receiver yields undefined (none). -/
def getField (v : JsValue) (key : List Char) : Option JsValue :=
  match v with
  | .obj fs => objGet fs key
  | _ => none

/-- Property assignment on an object's property list: replace in place when
the key exists (JavaScript object literals and assignment keep the original
position), append otherwise. -/
def objSetField : JsObj → List Char → JsValue → JsObj
  | .nil, k, v => .cons k v .nil
  | .cons k' v' tl, k, v =>
      if k' = k then .cons k v tl else .cons k' v' (objSetField tl k v)

/-- Property assignment on an arbitrary value: assignment to a primitive is
silently ignored in sloppy mode, which is how the repository runs. -/
def jsSetField (v : JsValue) (key : List Char) (val : JsValue) : JsValue :=
  match v with
  | .obj fs => .obj (objSetField fs key val)
  | other => other

/-- Property removal (models rest-destructuring that drops one property). -/
def objRemoveField : JsObj → List Char → JsObj
  | .nil, _ => .nil
  | .cons k' v' tl, k =>
      if k' = k then objRemoveField tl k else .cons k' v' (objRemoveField tl k)

/-- Array.isArray. -/
def isArray : JsValue → Bool
  | .arr _ => true
  | _ => false

/-- Append an element at the end of an array value's elements
(Array.prototype.push). -/
def arrPush : JsArr → JsValue → JsArr
  | .nil, v => .cons v .nil
  | .cons h tl, v => .cons h (arrPush tl v)

/-! ### JSON.stringify, modelled -/

/-- Decimal digit character for a value below ten. -/
def decDigit (n : Nat) : Char := Char.ofNat (48 + n)

/-- Lowercase hexadecimal digit character for a value below sixteen. -/
def hexDigit (n : Nat) : Char :=
  if n < 10 then Char.ofNat (48 + n) else Char.ofNat (87 + n)

/-- Decimal digits of a natural number, most significant first; the fuel
argument keeps the recursion structural so the kernel can evaluate it. -/
def natToCharsAux : Nat → Nat → List Char → List Char
  | 0, _, acc => acc
  | fuel + 1, n, acc =>
      let acc' := decDigit (n % 10) :: acc
      if n < 10 then acc' else natToCharsAux fuel (n / 10) acc'

/-- Decimal digits of a natural number, as JavaScript prints it. -/
def natToChars (n : Nat) : List Char := natToCharsAux (n + 1) n []

/-- Decimal form of an integer, as JavaScript prints it. -/
def intToChars (i : Int) : List Char :=
  (if i < 0 then ['-'] else []) ++ natToChars i.natAbs

/-- JSON.stringify's escaping of one string character: quote, backslash and
the named control characters get two-character escapes, the remaining
control characters get a lowercase unicode escape, everything else passes
through unchanged. -/
def escapeChar (c : Char) : List Char :=
  if c = dquote then [bslash, dquote]
  else if c = bslash then [bslash, bslash]
  else if c.toNat = 8 then [bslash, 'b']
  else if c.toNat = 9 then [bslash, 't']
  else if c.toNat = 10 then [bslash, 'n']
  else if c.toNat = 12 then [bslash, 'f']
  else if c.toNat = 13 then [bslash, 'r']
  else if c.toNat < 32 then
    [bslash, 'u', '0', '0', hexDigit (c.toNat / 16), hexDigit (c.toNat % 16)]
  else [c]

/-- JSON.stringify's escaping of a whole string body. -/
def escapeList : List Char → List Char
  | [] => []
  | c :: cs => escapeChar c ++ escapeList cs

/-- A string as JSON.stringify renders it, quotes included. -/
def strQuoted (s : List Char) : List Char := dquote :: escapeList s ++ [dquote]

mutual
/-- JSON.stringify on a value (no spacing, as the repository calls it). -/
def strv : JsValue → List Char
  | .num n => intToChars n
  | .str s => strQuoted s
  | .bool false => ['f', 'a', 'l', 's', 'e']
  | .bool true => ['t', 'r', 'u', 'e']
  | .null => ['n', 'u', 'l', 'l']
  | .arr xs => '[' :: strItems xs ++ [']']
  | .obj fs => lbrace :: strFields fs ++ [rbrace]

/-- JSON.stringify on the comma-separated element list of an array. -/
def strItems : JsArr → List Char
  | .nil => []
  | .cons v .nil => strv v
  | .cons v tl => strv v ++ ',' :: strItems tl

/-- JSON.stringify on the comma-separated property list of an object. -/
def strFields : JsObj → List Char
  | .nil => []
  | .cons k v .nil => strQuoted k ++ ':' :: strv v
  | .cons k v tl => strQuoted k ++ ':' :: strv v ++ ',' :: strFields tl
end

/-! ### JSON.parse, modelled (fuel-based recursive descent) -/

/-- Digit test used by the number grammar. -/
def isDigitC (c : Char) : Bool := 48 ≤ c.toNat && c.toNat ≤ 57

/-- JSON's whitespace characters. -/
def isJsonWs (c : Char) : Bool :=
  c.toNat = 32 || c.toNat = 9 || c.toNat = 10 || c.toNat = 13

/-- Drop leading JSON whitespace. -/
def skipJsonWs : List Char → List Char
  | [] => []
  | c :: cs => if isJsonWs c then skipJsonWs cs else c :: cs

/-- Longest leading digit run and the remainder. -/
def spanDigits : List Char → List Char × List Char
  | [] => ([], [])
  | c :: cs =>
      if isDigitC c then
        let (ds, r) := spanDigits cs
        (c :: ds, r)
      else ([], c :: cs)

/-- Numeric value of a digit run. -/
def digitsVal (ds : List Char) : Nat :=
  ds.foldl (fun acc c => acc * 10 + (c.toNat - 48)) 0

/-- Parse the integer part of a JSON number (leading zeros rejected, as
JSON.parse rejects them).  Fractions and exponents are outside the integer
number model. -/
def parseNumBody : List Char → Option (Nat × List Char)
  | [] => none
  | c :: cs =>
      if isDigitC c then
        if c = '0' then
          match cs with
          | d :: _ => if isDigitC d then none else some (0, cs)
          | [] => some (0, cs)
        else
          let (ds, r) := spanDigits cs
          some (digitsVal (c :: ds), r)
      else none

/-- Value of a hexadecimal digit character. -/
def hexVal (c : Char) : Option Nat :=
  if 48 ≤ c.toNat && c.toNat ≤ 57 then some (c.toNat - 48)
  else if 97 ≤ c.toNat && c.toNat ≤ 102 then some (c.toNat - 87)
  else if 65 ≤ c.toNat && c.toNat ≤ 70 then some (c.toNat - 55)
  else none

/-- The character named by a two-character escape. -/
def unescapeChar (c : Char) : Option Char :=
  if c = dquote then some dquote
  else if c = bslash then some bslash
  else if c = '/' then some '/'
  else if c = 'b' then some (Char.ofNat 8)
  else if c = 'f' then some (Char.ofNat 12)
  else if c = 'n' then some (Char.ofNat 10)
  else if c = 'r' then some (Char.ofNat 13)
  else if c = 't' then some (Char.ofNat 9)
  else none

/-- Parse a JSON string body after the opening quote: unescape escapes,
reject raw control characters and unterminated strings, stop at the
closing quote. -/
def parseStrBody : List Char → Option (List Char × List Char)
  | [] => none
  | c :: cs =>
      if c = dquote then some ([], cs)
      else if c = bslash then
        match cs with
        | 'u' :: a :: b :: d :: e :: rest =>
            (match hexVal a, hexVal b, hexVal d, hexVal e with
             | some va, some vb, some vd, some ve =>
                 (match parseStrBody rest with
                  | some (s, r) =>
                      some (Char.ofNat (((va * 16 + vb) * 16 + vd) * 16 + ve) :: s, r)
                  | none => none)
             | _, _, _, _ => none)
        | e :: rest =>
            (match unescapeChar e with
             | some ch =>
                 (match parseStrBody rest with
                  | some (s, r) => some (ch :: s, r)
                  | none => none)
             | none => none)
        | [] => none
      else if c.toNat < 32 then none
      else
        match parseStrBody cs with
        | some (s, r) => some (c :: s, r)
        | none => none

mutual
/-- Parse one JSON value (fuel keeps the mutual recursion structural). -/
def parseVal : Nat → List Char → Option (JsValue × List Char)
  | 0, _ => none
  | fuel + 1, input =>
      match skipJsonWs input with
      | 'n' :: 'u' :: 'l' :: 'l' :: r => some (.null, r)
      | 't' :: 'r' :: 'u' :: 'e' :: r => some (.bool true, r)
      | 'f' :: 'a' :: 'l' :: 's' :: 'e' :: r => some (.bool false, r)
      | '-' :: r =>
          (match parseNumBody r with
           | some (n, r') => some (.num (-(n : Int)), r')
           | none => none)
      | c :: r =>
          if c = dquote then
            match parseStrBody r with
            | some (s, r') => some (.str s, r')
            | none => none
          else if c = '[' then
            let other := skipJsonWs r
            if other.headD ' ' = ']' then some (.arr .nil, other.tail)
            else
              match parseItems fuel other with
              | some (xs, r') => some (.arr xs, r')
              | none => none
          else if c = lbrace then
            let other := skipJsonWs r
            if other.headD ' ' = rbrace then some (.obj .nil, other.tail)
            else
              match parseFields fuel other with
              | some (fs, r') => some (.obj fs, r')
              | none => none
          else
            match parseNumBody (c :: r) with
            | some (n, r') => some (.num (n : Int), r')
            | none => none
      | [] => none

/-- Parse the nonempty element list of an array, up to the closing bracket. -/
def parseItems : Nat → List Char → Option (JsArr × List Char)
  | 0, _ => none
  | fuel + 1, input =>
      match parseVal fuel input with
      | none => none
      | some (v, r) =>
          match skipJsonWs r with
          | ',' :: r' =>
              (match parseItems fuel r' with
               | some (xs, r'') => some (.cons v xs, r'')
               | none => none)
          | ']' :: r' => some (.cons v .nil, r')
          | _ => none

/-- Parse the nonempty property list of an object, up to the closing brace. -/
def parseFields : Nat → List Char → Option (JsObj × List Char)
  | 0, _ => none
  | fuel + 1, input =>
      match skipJsonWs input with
      | c :: r =>
          if c = dquote then
            match parseStrBody r with
            | none => none
            | some (k, r1) =>
                match skipJsonWs r1 with
                | ':' :: r2 =>
                    (match parseVal fuel r2 with
                     | none => none
                     | some (v, r3) =>
                         match skipJsonWs r3 with
                         | ',' :: r4 =>
                             (match parseFields fuel r4 with
                              | some (fs, r5) => some (.cons k v fs, r5)
                              | none => none)
                         | d :: r4 =>
                             if d = rbrace then some (.cons k v .nil, r4) else none
                         | [] => none)
                | _ => none
          else none
      | [] => none
end

/-- JSON.parse on a whole text: one value, nothing but whitespace after it;
any other input makes JSON.parse throw, modelled as none. -/
def jsonParse (input : List Char) : Option JsValue :=
  match parseVal (input.length + 1) input with
  | some (v, r) => if skipJsonWs r = [] then some v else none
  | none => none

/-! ### Arithmetic facts about the decimal rendering -/

/-- Char.toNat inverts Char.ofNat below the surrogate range. -/
theorem toNat_ofNat_lt (n : Nat) (h : n < 55296) : (Char.ofNat n).toNat = n := by
  have hv : n.isValidChar := Or.inl h
  rw [Char.ofNat, dif_pos hv]
  simp [Char.toNat, Char.ofNatAux, UInt32.toNat, BitVec.toNat_ofNatLt]

/-- Code point of a decimal digit character. -/
theorem decDigit_toNat (n : Nat) (h : n < 10) : (decDigit n).toNat = 48 + n :=
  toNat_ofNat_lt _ (by omega)

/-- Decimal digit characters satisfy the digit test. -/
theorem decDigit_isDigit (n : Nat) (h : n < 10) : isDigitC (decDigit n) = true := by
  simp [isDigitC, decDigit_toNat n h]
  omega

/-- The accumulator of the digit renderer rides along on the right. -/
theorem natToCharsAux_acc (fuel : Nat) : ∀ (n : Nat) (acc : List Char),
    natToCharsAux fuel n acc = natToCharsAux fuel n [] ++ acc := by
  induction fuel with
  | zero => intro n acc; simp [natToCharsAux]
  | succ f ih =>
      intro n acc
      simp only [natToCharsAux]
      by_cases h : n < 10
      · simp [h]
      · simp only [if_neg h]
        rw [ih (n / 10) (decDigit (n % 10) :: acc), ih (n / 10) [decDigit (n % 10)]]
        simp

/-- Any two sufficient fuels render the same digits. -/
theorem natToCharsAux_fuel : ∀ (n f g : Nat), n < 10 ^ f → n < 10 ^ g →
    1 ≤ f → 1 ≤ g → natToCharsAux f n [] = natToCharsAux g n [] := by
  intro n
  induction n using Nat.strong_induction_on with
  | _ n ih =>
      intro f g hf hg hf1 hg1
      obtain ⟨f', rfl⟩ : ∃ f', f = f' + 1 := ⟨f - 1, by omega⟩
      obtain ⟨g', rfl⟩ : ∃ g', g = g' + 1 := ⟨g - 1, by omega⟩
      simp only [natToCharsAux]
      by_cases h : n < 10
      · simp [h]
      · simp only [if_neg h]
        rw [natToCharsAux_acc f', natToCharsAux_acc g']
        have h10 : (0 : Nat) < 10 := by norm_num
        have hfd : n / 10 < 10 ^ f' := by
          rw [Nat.div_lt_iff_lt_mul h10]
          calc n < 10 ^ (f' + 1) := hf
            _ = 10 ^ f' * 10 := pow_succ 10 f'
        have hgd : n / 10 < 10 ^ g' := by
          rw [Nat.div_lt_iff_lt_mul h10]
          calc n < 10 ^ (g' + 1) := hg
            _ = 10 ^ g' * 10 := pow_succ 10 g'
        have hf1' : 1 ≤ f' := by
          by_contra hc
          have : f' = 0 := by omega
          subst this
          simp at hf
          omega
        have hg1' : 1 ≤ g' := by
          by_contra hc
          have : g' = 0 := by omega
          subst this
          simp at hg
          omega
        rw [ih (n / 10) (by omega) f' g' hfd hgd hf1' hg1']

/-- One-step unfolding of the decimal renderer, fuel hidden. -/
theorem natToChars_eq (n : Nat) :
    natToChars n = if n < 10 then [decDigit n]
                   else natToChars (n / 10) ++ [decDigit (n % 10)] := by
  by_cases h : n < 10
  · simp only [natToChars, natToCharsAux, if_pos h]
    rw [Nat.mod_eq_of_lt h]
  · simp only [natToChars, natToCharsAux, if_neg h]
    rw [natToCharsAux_acc n (n / 10) [decDigit (n % 10)]]
    congr 1
    have h1 : n / 10 < 10 ^ n := by
      calc n / 10 < n := by omega
        _ < 10 ^ n := Nat.lt_pow_self (by norm_num) n
    have h2 : n / 10 < 10 ^ (n / 10 + 1) := by
      calc n / 10 < 10 ^ (n / 10) := Nat.lt_pow_self (by norm_num) _
        _ ≤ 10 ^ (n / 10 + 1) := Nat.pow_le_pow_right (by norm_num) (by omega)
    exact natToCharsAux_fuel (n / 10) n (n / 10 + 1) h1 h2 (by omega) (by omega)

/-- Every rendered character is a digit. -/
theorem natToChars_digits (n : Nat) : ∀ c ∈ natToChars n, isDigitC c = true := by
  induction n using Nat.strong_induction_on with
  | _ n ih =>
      rw [natToChars_eq]
      by_cases h : n < 10
      · simp only [if_pos h, List.mem_singleton]
        rintro c rfl
        exact decDigit_isDigit n h
      · simp only [if_neg h, List.mem_append, List.mem_singleton]
        rintro c (hc | rfl)
        · exact ih (n / 10) (by omega) c hc
        · exact decDigit_isDigit _ (Nat.mod_lt _ (by omega))

/-- The decimal rendering is nonempty. -/
theorem natToChars_ne_nil (n : Nat) : natToChars n ≠ [] := by
  rw [natToChars_eq]
  by_cases h : n < 10 <;> simp [h]

/-- A positive number's rendering starts with a nonzero digit. -/
theorem natToChars_head_pos (n : Nat) (hn : 1 ≤ n) :
    ∃ c t, natToChars n = c :: t ∧ isDigitC c = true ∧ c ≠ '0' := by
  induction n using Nat.strong_induction_on with
  | _ n ih =>
      rw [natToChars_eq]
      by_cases h : n < 10
      · refine ⟨decDigit n, [], by simp [h], decDigit_isDigit n h, ?_⟩
        intro heq
        have h1 := decDigit_toNat n h
        rw [heq] at h1
        have h2 : ('0' : Char).toNat = 48 := by decide
        omega
      · obtain ⟨c, t, hct, hd, hz⟩ := ih (n / 10) (by omega) (by omega)
        exact ⟨c, t ++ [decDigit (n % 10)], by simp [h, hct], hd, hz⟩

/-- Folding the digits back recovers the number. -/
theorem digitsVal_natToChars (n : Nat) : digitsVal (natToChars n) = n := by
  induction n using Nat.strong_induction_on with
  | _ n ih =>
      rw [natToChars_eq]
      by_cases h : n < 10
      · simp only [if_pos h, digitsVal, List.foldl_cons, List.foldl_nil]
        rw [decDigit_toNat n h]
        omega
      · simp only [if_neg h, digitsVal, List.foldl_append, List.foldl_cons, List.foldl_nil]
        have hih := ih (n / 10) (by omega)
        rw [digitsVal] at hih
        rw [hih, decDigit_toNat _ (Nat.mod_lt _ (by omega))]
        omega

/-- A remainder that cannot extend a digit run: empty or headed
by a non-digit. -/
def numStop : List Char → Bool
  | [] => true
  | c :: _ => !isDigitC c

/-- The digit scanner stops immediately at a stopping remainder. -/
theorem spanDigits_stop {l : List Char} (h : numStop l = true) :
    spanDigits l = ([], l) := by
  match l with
  | [] => rfl
  | c :: t =>
      simp only [numStop, Bool.not_eq_true'] at h
      simp [spanDigits, h]

/-- The digit scanner consumes exactly a digit run. -/
theorem spanDigits_append (ds : List Char) (hds : ∀ c ∈ ds, isDigitC c = true)
    (rest : List Char) (hrest : numStop rest = true) :
    spanDigits (ds ++ rest) = (ds, rest) := by
  induction ds with
  | nil => simpa using spanDigits_stop hrest
  | cons c t ih =>
      have hc : isDigitC c = true := hds c (by simp)
      have ht := ih (fun x hx => hds x (by simp [hx]))
      simp [spanDigits, hc, ht]

/-- The integer-part parser inverts the decimal renderer. -/
theorem parseNumBody_natToChars (n : Nat) (rest : List Char)
    (hrest : numStop rest = true) :
    parseNumBody (natToChars n ++ rest) = some (n, rest) := by
  by_cases hn : n = 0
  · subst hn
    have h0 : natToChars 0 = ['0'] := by decide
    rw [h0]
    match rest, hrest with
    | [], _ => decide
    | c :: t, hr =>
        simp only [numStop, Bool.not_eq_true'] at hr
        simp [parseNumBody, hr, (by decide : isDigitC '0' = true)]
  · obtain ⟨c, t, hct, hd, hz⟩ := natToChars_head_pos n (by omega)
    have htd : ∀ x ∈ t, isDigitC x = true := by
      intro x hx
      exact natToChars_digits n x (by rw [hct]; simp [hx])
    rw [hct]
    simp only [List.cons_append, parseNumBody]
    rw [if_pos hd, if_neg hz, spanDigits_append t htd rest hrest]
    have : digitsVal (c :: t) = n := by
      rw [← hct]
      exact digitsVal_natToChars n
    simp [this]

/-! ### The string codec round trip -/

/-- Hexadecimal digits decode to their value. -/
theorem hexVal_hexDigit : ∀ n < 16, hexVal (hexDigit n) = some n := by decide

/-- Parsing one escaped character after the opening quote undoes the escape. -/
theorem parseStrBody_escapeChar (c : Char) (l : List Char) :
    parseStrBody (escapeChar c ++ l) =
      match parseStrBody l with
      | some (s, r) => some (c :: s, r)
      | none => none := by
  by_cases h1 : c = dquote
  · subst h1
    simp +decide [escapeChar, parseStrBody, unescapeChar]
  by_cases h2 : c = bslash
  · subst h2
    simp +decide [escapeChar, parseStrBody, unescapeChar]
  by_cases h3 : c.toNat = 8
  · simp +decide [escapeChar, h1, h2, h3, parseStrBody, unescapeChar]
    have : c = Char.ofNat 8 := by
      rw [← h3, Char.ofNat_toNat]
    rw [← this]
  by_cases h4 : c.toNat = 9
  · simp +decide [escapeChar, h1, h2, h3, h4, parseStrBody, unescapeChar]
    have : c = Char.ofNat 9 := by
      rw [← h4, Char.ofNat_toNat]
    rw [← this]
  by_cases h5 : c.toNat = 10
  · simp +decide [escapeChar, h1, h2, h3, h4, h5, parseStrBody, unescapeChar]
    have : c = Char.ofNat 10 := by
      rw [← h5, Char.ofNat_toNat]
    rw [← this]
  by_cases h6 : c.toNat = 12
  · simp +decide [escapeChar, h1, h2, h3, h4, h5, h6, parseStrBody, unescapeChar]
    have : c = Char.ofNat 12 := by
      rw [← h6, Char.ofNat_toNat]
    rw [← this]
  by_cases h7 : c.toNat = 13
  · simp +decide [escapeChar, h1, h2, h3, h4, h5, h6, h7, parseStrBody, unescapeChar]
    have : c = Char.ofNat 13 := by
      rw [← h7, Char.ofNat_toNat]
    rw [← this]
  by_cases h8 : c.toNat < 32
  · simp only [escapeChar, if_neg h1, if_neg h2, if_neg h3, if_neg h4, if_neg h5,
      if_neg h6, if_neg h7, if_pos h8, List.cons_append, List.nil_append]
    have hhi : c.toNat / 16 < 16 := by omega
    have hlo : c.toNat % 16 < 16 := by omega
    simp +decide [parseStrBody, hexVal_hexDigit _ hhi, hexVal_hexDigit _ hlo,
      (by decide : hexVal '0' = some 0)]
    have harith : c.toNat / 16 * 16 + c.toNat % 16 = c.toNat := by omega
    rw [harith, Char.ofNat_toNat]
  · simp only [escapeChar, if_neg h1, if_neg h2, if_neg h3, if_neg h4, if_neg h5,
      if_neg h6, if_neg h7, if_neg h8, List.cons_append, List.nil_append]
    rw [parseStrBody.eq_def]
    simp [h1, h2, h8]

/-- The string-body parser inverts the escaper up to the closing quote. -/
theorem parseStrBody_escapeList (s : List Char) (rest : List Char) :
    parseStrBody (escapeList s ++ dquote :: rest) = some (s, rest) := by
  induction s with
  | nil =>
      simp only [escapeList, List.nil_append]
      rw [parseStrBody.eq_def]
      simp
  | cons c t ih =>
      rw [escapeList, List.append_assoc, parseStrBody_escapeChar, ih]

/-! ### The full JSON codec round trip -/

/-- Dropping whitespace does nothing before a non-whitespace head. -/
theorem skipJsonWs_cons (c : Char) (l : List Char) (h : isJsonWs c = false) :
    skipJsonWs (c :: l) = c :: l := by
  simp [skipJsonWs, h]

/-- A digit character is none of the delimiters or value-start markers. -/
theorem isDigitC_ne {c : Char} (h : isDigitC c = true) :
    isJsonWs c = false ∧ c ≠ 'n' ∧ c ≠ 't' ∧ c ≠ 'f' ∧ c ≠ '-' ∧
      c ≠ dquote ∧ c ≠ '[' ∧ c ≠ lbrace ∧ c ≠ ']' ∧ c ≠ rbrace ∧ c ≠ ',' := by
  have hb : 48 ≤ c.toNat ∧ c.toNat ≤ 57 := by
    simpa [isDigitC] using h
  refine ⟨?_, ?_, ?_, ?_, ?_, ?_, ?_, ?_, ?_, ?_, ?_⟩
  · simp [isJsonWs]; omega
  all_goals rintro rfl
  all_goals revert hb
  all_goals decide

/-- A rendered value begins with a marker that is neither whitespace nor a
closing delimiter. -/
theorem strv_head (v : JsValue) :
    ∃ c t, strv v = c :: t ∧ isJsonWs c = false ∧ c ≠ ']' ∧ c ≠ rbrace := by
  cases v with
  | null => exact ⟨'n', _, rfl, by decide, by decide, by decide⟩
  | bool b =>
      cases b with
      | false => exact ⟨'f', _, rfl, by decide, by decide, by decide⟩
      | true => exact ⟨'t', _, rfl, by decide, by decide, by decide⟩
  | str s => exact ⟨dquote, _, rfl, by decide, by decide, by decide⟩
  | arr xs => exact ⟨'[', _, rfl, by decide, by decide, by decide⟩
  | obj fs => exact ⟨lbrace, _, rfl, by decide, by decide, by decide⟩
  | num n =>
      by_cases hn : n < 0
      · refine ⟨'-', natToChars n.natAbs, ?_, by decide, by decide, by decide⟩
        simp [strv, intToChars, hn]
      · have hne := natToChars_ne_nil n.natAbs
        match hc : natToChars n.natAbs with
        | [] => exact absurd hc hne
        | c :: t =>
            have hd : isDigitC c = true :=
              natToChars_digits n.natAbs c (by rw [hc]; simp)
            obtain ⟨hws, _, _, _, _, _, _, _, hbr, hbc, _⟩ := isDigitC_ne hd
            refine ⟨c, t, ?_, hws, hbr, hbc⟩
            simp [strv, intToChars, hn, hc]

/-- A rendered value is nonempty. -/
theorem strv_ne_nil (v : JsValue) : strv v ≠ [] := by
  obtain ⟨c, t, hct, _⟩ := strv_head v
  simp [hct]

/-- The parser's dispatch on a head character that starts no keyword:
it tries, in order, string, array, object, number. -/
theorem parseVal_cons (f : Nat) (c : Char) (t : List Char)
    (hws : isJsonWs c = false) (hn : c ≠ 'n') (ht : c ≠ 't') (hf : c ≠ 'f')
    (hm : c ≠ '-') :
    parseVal (f + 1) (c :: t) =
      (if c = dquote then
        match parseStrBody t with
        | some (s, r') => some (.str s, r')
        | none => none
      else if c = '[' then
        let other := skipJsonWs t
        if other.headD ' ' = ']' then some (.arr .nil, other.tail)
        else
          match parseItems f other with
          | some (xs, r') => some (.arr xs, r')
          | none => none
      else if c = lbrace then
        let other := skipJsonWs t
        if other.headD ' ' = rbrace then some (.obj .nil, other.tail)
        else
          match parseFields f other with
          | some (fs, r') => some (.obj fs, r')
          | none => none
      else
        match parseNumBody (c :: t) with
        | some (n, r') => some (.num (n : Int), r')
        | none => none) := by
  simp only [parseVal]
  rw [skipJsonWs_cons c t hws]
  simp [hn, ht, hf, hm]

/-- The parser's dispatch on a leading minus sign. -/
theorem parseVal_minus (f : Nat) (t : List Char) :
    parseVal (f + 1) ('-' :: t) =
      (match parseNumBody t with
       | some (n, r') => some (.num (-(n : Int)), r')
       | none => none) := by
  simp only [parseVal]
  rw [skipJsonWs_cons '-' t (by decide)]
  simp

/-- A non-digit head makes a remainder that stops a digit run. -/
theorem numStop_cons (c : Char) (l : List Char) (h : isDigitC c = false) :
    numStop (c :: l) = true := by
  simp [numStop, h]

/-- The element list of a nonempty array renders with its first element's
rendering in front. -/
theorem strItems_cons_eq (x : JsValue) (xs : JsArr) :
    ∃ s, strItems (.cons x xs) = strv x ++ s := by
  cases xs with
  | nil => exact ⟨[], by simp [strItems]⟩
  | cons y ys => exact ⟨',' :: strItems (.cons y ys), rfl⟩

/-- The property list of a nonempty object renders with the opening quote of
its first key in front. -/
theorem strFields_cons_eq (k : List Char) (v : JsValue) (fs : JsObj) :
    ∃ s, strFields (.cons k v fs) = dquote :: s := by
  cases fs with
  | nil => exact ⟨escapeList k ++ [dquote] ++ ':' :: strv v, by simp [strFields, strQuoted]⟩
  | cons k2 v2 fs2 =>
      exact ⟨escapeList k ++ [dquote] ++ ':' :: strv v ++ ',' :: strFields (.cons k2 v2 fs2),
        by simp [strFields, strQuoted]⟩

mutual
/-- Parsing a rendered value consumes exactly the rendering: the codec
round trip, value part. -/
theorem parseVal_strv : ∀ (v : JsValue) (fuel : Nat) (rest : List Char),
    (strv v).length < fuel → numStop rest = true →
    parseVal fuel (strv v ++ rest) = some (v, rest)
  | .null, fuel, rest, hfu, _ => by
      obtain ⟨f, rfl⟩ : ∃ f, fuel = f + 1 := ⟨fuel - 1, by omega⟩
      simp +decide [strv, parseVal, skipJsonWs, isJsonWs]
  | .bool true, fuel, rest, hfu, _ => by
      obtain ⟨f, rfl⟩ : ∃ f, fuel = f + 1 := ⟨fuel - 1, by omega⟩
      simp +decide [strv, parseVal, skipJsonWs, isJsonWs]
  | .bool false, fuel, rest, hfu, _ => by
      obtain ⟨f, rfl⟩ : ∃ f, fuel = f + 1 := ⟨fuel - 1, by omega⟩
      simp +decide [strv, parseVal, skipJsonWs, isJsonWs]
  | .num n, fuel, rest, hfu, hstop => by
      obtain ⟨f, rfl⟩ : ∃ f, fuel = f + 1 := ⟨fuel - 1, by omega⟩
      by_cases hn : n < 0
      · have hs : strv (.num n) ++ rest = '-' :: (natToChars n.natAbs ++ rest) := by
          simp [strv, intToChars, hn]
        rw [hs, parseVal_minus f _, parseNumBody_natToChars n.natAbs rest hstop]
        simp
        rw [abs_of_neg hn, neg_neg]
      · have hne := natToChars_ne_nil n.natAbs
        match hc : natToChars n.natAbs with
        | [] => exact absurd hc hne
        | c :: t =>
            have hd : isDigitC c = true :=
              natToChars_digits n.natAbs c (by rw [hc]; simp)
            obtain ⟨hws, hn', ht', hf', hm', hq', hlb', hlbr', _, _, _⟩ := isDigitC_ne hd
            have hs : strv (.num n) ++ rest = c :: (t ++ rest) := by
              simp [strv, intToChars, hn, hc]
            rw [hs, parseVal_cons f c (t ++ rest) hws hn' ht' hf' hm']
            rw [if_neg hq', if_neg hlb', if_neg hlbr']
            have hpn : parseNumBody (c :: (t ++ rest)) = some (n.natAbs, rest) := by
              rw [← List.cons_append, ← hc]
              exact parseNumBody_natToChars _ _ hstop
            rw [hpn]
            simp
            omega
  | .str s, fuel, rest, hfu, _ => by
      obtain ⟨f, rfl⟩ : ∃ f, fuel = f + 1 := ⟨fuel - 1, by omega⟩
      have hs : strv (.str s) ++ rest = dquote :: (escapeList s ++ dquote :: rest) := by
        simp [strv, strQuoted]
      rw [hs, parseVal_cons f dquote _ (by decide) (by decide) (by decide) (by decide)
        (by decide)]
      rw [if_pos rfl, parseStrBody_escapeList]
  | .arr .nil, fuel, rest, hfu, _ => by
      obtain ⟨f, rfl⟩ : ∃ f, fuel = f + 1 := ⟨fuel - 1, by omega⟩
      have hs : strv (.arr .nil) ++ rest = '[' :: (']' :: rest) := by
        simp [strv, strItems]
      rw [hs, parseVal_cons f '[' _ (by decide) (by decide) (by decide) (by decide)
        (by decide)]
      rw [if_neg (by decide), if_pos rfl, skipJsonWs_cons ']' rest (by decide)]
      simp
  | .arr (.cons x xs), fuel, rest, hfu, _ => by
      obtain ⟨f, rfl⟩ : ∃ f, fuel = f + 1 := ⟨fuel - 1, by omega⟩
      have hs : strv (.arr (.cons x xs)) ++ rest
          = '[' :: (strItems (.cons x xs) ++ ']' :: rest) := by
        simp [strv]
      rw [hs, parseVal_cons f '[' _ (by decide) (by decide) (by decide) (by decide)
        (by decide)]
      rw [if_neg (by decide), if_pos rfl]
      obtain ⟨s, hsi⟩ := strItems_cons_eq x xs
      obtain ⟨c0, t0, hct, hws0, hbr0, _⟩ := strv_head x
      have hshape : strItems (.cons x xs) ++ ']' :: rest
          = c0 :: (t0 ++ (s ++ ']' :: rest)) := by
        rw [hsi, hct]
        simp
      have hlen : (strItems (.cons x xs)).length + 1 < f := by
        have : (strv (.arr (.cons x xs))).length
            = (strItems (.cons x xs)).length + 2 := by
          simp [strv]
        omega
      rw [hshape, skipJsonWs_cons c0 _ hws0]
      simp only [List.headD_cons, List.tail_cons]
      rw [if_neg hbr0, ← hshape, parseItems_strItems x xs f rest hlen]
  | .obj .nil, fuel, rest, hfu, _ => by
      obtain ⟨f, rfl⟩ : ∃ f, fuel = f + 1 := ⟨fuel - 1, by omega⟩
      have hs : strv (.obj .nil) ++ rest = lbrace :: (rbrace :: rest) := by
        simp [strv, strFields]
      rw [hs, parseVal_cons f lbrace _ (by decide) (by decide) (by decide) (by decide)
        (by decide)]
      rw [if_neg (by decide), if_neg (by decide), if_pos rfl,
        skipJsonWs_cons rbrace rest (by decide)]
      simp
  | .obj (.cons k v fs), fuel, rest, hfu, _ => by
      obtain ⟨f, rfl⟩ : ∃ f, fuel = f + 1 := ⟨fuel - 1, by omega⟩
      have hs : strv (.obj (.cons k v fs)) ++ rest
          = lbrace :: (strFields (.cons k v fs) ++ rbrace :: rest) := by
        simp [strv]
      rw [hs, parseVal_cons f lbrace _ (by decide) (by decide) (by decide) (by decide)
        (by decide)]
      rw [if_neg (by decide), if_neg (by decide), if_pos rfl]
      obtain ⟨s, hsf⟩ := strFields_cons_eq k v fs
      have hshape : strFields (.cons k v fs) ++ rbrace :: rest
          = dquote :: (s ++ rbrace :: rest) := by
        rw [hsf]
        simp
      have hlen : (strFields (.cons k v fs)).length + 1 < f := by
        have : (strv (.obj (.cons k v fs))).length
            = (strFields (.cons k v fs)).length + 2 := by
          simp [strv]
        omega
      rw [hshape, skipJsonWs_cons dquote _ (by decide)]
      simp only [List.headD_cons, List.tail_cons]
      rw [if_neg (by decide : ¬(dquote = rbrace)), ← hshape,
        parseFields_strFields k v fs f rest hlen]
  termination_by v _ _ _ _ => sizeOf v

/-- Parsing a rendered nonempty element list consumes it up to the closing
bracket: the codec round trip, array part. -/
theorem parseItems_strItems : ∀ (x : JsValue) (xs : JsArr) (fuel : Nat)
    (rest : List Char),
    (strItems (.cons x xs)).length + 1 < fuel →
    parseItems fuel (strItems (.cons x xs) ++ ']' :: rest) = some (.cons x xs, rest)
  | x, .nil, fuel, rest, hfu => by
      obtain ⟨f, rfl⟩ : ∃ f, fuel = f + 1 := ⟨fuel - 1, by omega⟩
      simp only [parseItems]
      have h1 : strItems (.cons x .nil) ++ ']' :: rest = strv x ++ ']' :: rest := by
        simp [strItems]
      have hlen : (strv x).length < f := by
        have : (strItems (.cons x .nil)).length = (strv x).length := by simp [strItems]
        omega
      rw [h1, parseVal_strv x f (']' :: rest) hlen (numStop_cons _ _ (by decide))]
      simp +decide [skipJsonWs]
  | x, .cons y ys, fuel, rest, hfu => by
      obtain ⟨f, rfl⟩ : ∃ f, fuel = f + 1 := ⟨fuel - 1, by omega⟩
      simp only [parseItems]
      have h1 : strItems (.cons x (.cons y ys)) ++ ']' :: rest
          = strv x ++ (',' :: (strItems (.cons y ys) ++ ']' :: rest)) := by
        simp [strItems]
      have hx1 : 1 ≤ (strv x).length :=
        List.length_pos.mpr (strv_ne_nil x)
      have hlx : (strv x).length < f := by
        have : (strItems (.cons x (.cons y ys))).length
            = (strv x).length + 1 + (strItems (.cons y ys)).length := by
          simp [strItems]
          omega
        omega
      have hly : (strItems (.cons y ys)).length + 1 < f := by
        have : (strItems (.cons x (.cons y ys))).length
            = (strv x).length + 1 + (strItems (.cons y ys)).length := by
          simp [strItems]
          omega
        omega
      rw [h1, parseVal_strv x f _ hlx (numStop_cons _ _ (by decide))]
      simp +decide [skipJsonWs, parseItems_strItems y ys f rest hly]
  termination_by x xs _ _ _ => sizeOf x + sizeOf xs

/-- Parsing a rendered nonempty property list consumes it up to the closing
brace: the codec round trip, object part. -/
theorem parseFields_strFields : ∀ (k : List Char) (v : JsValue) (fs : JsObj)
    (fuel : Nat) (rest : List Char),
    (strFields (.cons k v fs)).length + 1 < fuel →
    parseFields fuel (strFields (.cons k v fs) ++ rbrace :: rest)
      = some (.cons k v fs, rest)
  | k, v, .nil, fuel, rest, hfu => by
      obtain ⟨f, rfl⟩ : ∃ f, fuel = f + 1 := ⟨fuel - 1, by omega⟩
      simp only [parseFields]
      have h1 : strFields (.cons k v .nil) ++ rbrace :: rest
          = dquote :: (escapeList k ++ dquote :: (':' :: (strv v ++ rbrace :: rest))) := by
        simp [strFields, strQuoted]
      have hlen : (strv v).length < f := by
        have : (strFields (.cons k v .nil)).length
            = (strQuoted k).length + 1 + (strv v).length := by
          simp [strFields]
          omega
        have hq : 2 ≤ (strQuoted k).length := by
          simp [strQuoted]
          try omega
        omega
      have hstr := parseStrBody_escapeList k (':' :: (strv v ++ rbrace :: rest))
      have hv := parseVal_strv v f (rbrace :: rest) hlen (numStop_cons _ _ (by decide))
      rw [h1, skipJsonWs_cons dquote _ (by decide)]
      simp +decide [hstr, skipJsonWs, hv]
  | k, v, .cons k2 v2 fs2, fuel, rest, hfu => by
      obtain ⟨f, rfl⟩ : ∃ f, fuel = f + 1 := ⟨fuel - 1, by omega⟩
      simp only [parseFields]
      have h1 : strFields (.cons k v (.cons k2 v2 fs2)) ++ rbrace :: rest
          = dquote :: (escapeList k ++ dquote ::
              (':' :: (strv v ++ (',' :: (strFields (.cons k2 v2 fs2)
                ++ rbrace :: rest))))) := by
        simp [strFields, strQuoted]
      have hq : 2 ≤ (strQuoted k).length := by
        simp [strQuoted]
        try omega
      have hflen : (strFields (.cons k v (.cons k2 v2 fs2))).length
          = (strQuoted k).length + 1 + (strv v).length + 1
            + (strFields (.cons k2 v2 fs2)).length := by
        simp [strFields]
        omega
      have hlv : (strv v).length < f := by omega
      have hlf : (strFields (.cons k2 v2 fs2)).length + 1 < f := by omega
      have hstr := parseStrBody_escapeList k
        (':' :: (strv v ++ (',' :: (strFields (.cons k2 v2 fs2) ++ rbrace :: rest))))
      have hv := parseVal_strv v f
        (',' :: (strFields (.cons k2 v2 fs2) ++ rbrace :: rest)) hlv
        (numStop_cons _ _ (by decide))
      have hrec := parseFields_strFields k2 v2 fs2 f rest hlf
      rw [h1, skipJsonWs_cons dquote _ (by decide)]
      simp +decide [hstr, skipJsonWs, hv, hrec]
  termination_by k v fs _ _ _ => sizeOf v + sizeOf fs
end

/-- The whole-text JSON codec round trip: parsing a rendered value yields
the value back. -/
theorem jsonParse_strv (v : JsValue) : jsonParse (strv v) = some v := by
  have h := parseVal_strv v ((strv v).length + 1) [] (by omega) (by decide)
  rw [List.append_nil] at h
  simp [jsonParse, h, skipJsonWs]

example : jsonParse "null".toList = some .null := by decide
example : jsonParse "  -45 ".toList = some (.num (-45)) := by decide
example : jsonParse "[1,true]".toList =
    some (.arr (.cons (.num 1) (.cons (.bool true) .nil))) := by decide
example : jsonParse (strv (.obj (.cons "a".toList (.num 7) .nil))) =
    some (.obj (.cons "a".toList (.num 7) .nil)) := by decide
example : jsonParse "undefined".toList = none := by decide
example : jsonParse "01".toList = none := by decide
example : strv (.str ['x', dquote, Char.ofNat 3]) =
    [dquote, 'x', bslash, dquote, bslash, 'u', '0', '0', '0', '3', dquote] := by decide
example : jsonParse (strv (.str ['x', dquote, Char.ofNat 3])) =
    some (.str ['x', dquote, Char.ofNat 3]) := by decide

/-! ### btoa and atob, modelled (strict base64 on byte values) -/

/-- The base64 alphabet in order. -/
def b64Alphabet : List Char :=
  "ABCDEFGHIJKLMNOPQRSTUVWXYZabcdefghijklmnopqrstuvwxyz0123456789+/".toList

/-- The alphabet character of a six-bit value. -/
def sixToChar (n : Nat) : Char := b64Alphabet.getD n 'A'

/-- Index search in the alphabet. -/
def idxOf6 : List Char → Char → Nat → Option Nat
  | [], _, _ => none
  | a :: as, c, i => if a = c then some i else idxOf6 as c (i + 1)

/-- The six-bit value of an alphabet character. -/
def charToSix (c : Char) : Option Nat := idxOf6 b64Alphabet c 0

/-- Base64-encode a byte list (btoa's core), padding with equals signs. -/
def b64Encode : List Nat → List Char
  | [] => []
  | [b1] => [sixToChar (b1 / 4), sixToChar (b1 % 4 * 16), '=', '=']
  | [b1, b2] =>
      [sixToChar (b1 / 4), sixToChar (b1 % 4 * 16 + b2 / 16), sixToChar (b2 % 16 * 4), '=']
  | b1 :: b2 :: b3 :: rest =>
      sixToChar (b1 / 4) :: sixToChar (b1 % 4 * 16 + b2 / 16) ::
        sixToChar (b2 % 16 * 4 + b3 / 64) :: sixToChar (b3 % 64) :: b64Encode rest

/-- btoa on a (latin1) string: encode the code points as bytes. -/
def btoa (s : List Char) : List Char := b64Encode (s.map Char.toNat)

/-- Base64-decode a character list (atob's core); malformed input is a
thrown InvalidCharacterError, modelled as none. -/
def b64Decode : List Char → Option (List Nat)
  | [] => some []
  | c1 :: c2 :: c3 :: c4 :: rest =>
      if c3 = '=' ∧ c4 = '=' ∧ rest = [] then
        match charToSix c1, charToSix c2 with
        | some x1, some x2 => some [x1 * 4 + x2 / 16]
        | _, _ => none
      else if c4 = '=' ∧ rest = [] then
        match charToSix c1, charToSix c2, charToSix c3 with
        | some x1, some x2, some x3 =>
            some [x1 * 4 + x2 / 16, x2 % 16 * 16 + x3 / 4]
        | _, _, _ => none
      else
        match charToSix c1, charToSix c2, charToSix c3, charToSix c4 with
        | some x1, some x2, some x3, some x4 =>
            (match b64Decode rest with
             | some bs =>
                 some ((x1 * 4 + x2 / 16) :: (x2 % 16 * 16 + x3 / 4) ::
                   (x3 % 4 * 64 + x4) :: bs)
             | none => none)
        | _, _, _, _ => none
  | _ => none

/-- atob on a string: decode and read the bytes back as characters. -/
def atob (s : List Char) : Option (List Char) :=
  match b64Decode s with
  | some bs => some (bs.map Char.ofNat)
  | none => none

/-- Decoding an alphabet character recovers its six-bit value. -/
theorem charToSix_sixToChar : ∀ n < 64, charToSix (sixToChar n) = some n := by decide

/-- Alphabet characters are not the padding sign. -/
theorem sixToChar_ne_pad : ∀ n < 64, sixToChar n ≠ '=' := by decide

/-- Alphabet characters are not a dot. -/
theorem sixToChar_ne_dot : ∀ n < 64, sixToChar n ≠ '.' := by decide

/-- The base64 byte-level round trip. -/
theorem b64Decode_b64Encode : ∀ bs : List Nat, (∀ b ∈ bs, b < 256) →
    b64Decode (b64Encode bs) = some bs
  | [], _ => by simp [b64Encode, b64Decode]
  | [b1], h => by
      have hb1 : b1 < 256 := h b1 (by simp)
      have h1 : b1 / 4 < 64 := by omega
      have h2 : b1 % 4 * 16 < 64 := by omega
      simp only [b64Encode, b64Decode]
      rw [if_pos (by simp), charToSix_sixToChar _ h1, charToSix_sixToChar _ h2]
      simp <;> omega
  | [b1, b2], h => by
      have hb1 : b1 < 256 := h b1 (by simp)
      have hb2 : b2 < 256 := h b2 (by simp)
      have h1 : b1 / 4 < 64 := by omega
      have h2 : b1 % 4 * 16 + b2 / 16 < 64 := by omega
      have h3 : b2 % 16 * 4 < 64 := by omega
      simp only [b64Encode, b64Decode]
      rw [if_neg (by
        rintro ⟨he, -, -⟩
        exact sixToChar_ne_pad _ h3 he)]
      rw [if_pos (by simp), charToSix_sixToChar _ h1, charToSix_sixToChar _ h2,
        charToSix_sixToChar _ h3]
      simp <;> omega
  | b1 :: b2 :: b3 :: b4 :: rest, h => by
      have hb1 : b1 < 256 := h b1 (by simp)
      have hb2 : b2 < 256 := h b2 (by simp)
      have hb3 : b3 < 256 := h b3 (by simp)
      have h1 : b1 / 4 < 64 := by omega
      have h2 : b1 % 4 * 16 + b2 / 16 < 64 := by omega
      have h3 : b2 % 16 * 4 + b3 / 64 < 64 := by omega
      have h4 : b3 % 64 < 64 := by omega
      have hrec := b64Decode_b64Encode (b4 :: rest) (fun b hb => h b (by simp [hb]))
      simp only [b64Encode, b64Decode]
      rw [if_neg (by
        rintro ⟨he, -, -⟩
        exact sixToChar_ne_pad _ h3 he)]
      rw [if_neg (by
        rintro ⟨he, -⟩
        exact sixToChar_ne_pad _ h4 he)]
      rw [charToSix_sixToChar _ h1, charToSix_sixToChar _ h2,
        charToSix_sixToChar _ h3, charToSix_sixToChar _ h4, hrec]
      simp <;> omega
  | [b1, b2, b3], h => by
      have hb1 : b1 < 256 := h b1 (by simp)
      have hb2 : b2 < 256 := h b2 (by simp)
      have hb3 : b3 < 256 := h b3 (by simp)
      have h1 : b1 / 4 < 64 := by omega
      have h2 : b1 % 4 * 16 + b2 / 16 < 64 := by omega
      have h3 : b2 % 16 * 4 + b3 / 64 < 64 := by omega
      have h4 : b3 % 64 < 64 := by omega
      simp only [b64Encode, b64Decode]
      rw [if_neg (by
        rintro ⟨he, -, -⟩
        exact sixToChar_ne_pad _ h3 he)]
      rw [if_neg (by
        rintro ⟨he, -⟩
        exact sixToChar_ne_pad _ h4 he)]
      rw [charToSix_sixToChar _ h1, charToSix_sixToChar _ h2,
        charToSix_sixToChar _ h3, charToSix_sixToChar _ h4]
      simp [b64Decode] <;> omega

/-- Reading code points back as characters is the identity. -/
theorem map_ofNat_toNat : ∀ s : List Char, (s.map Char.toNat).map Char.ofNat = s
  | [] => rfl
  | c :: t => by
      have ih := map_ofNat_toNat t
      simp only [List.map_cons, Char.ofNat_toNat, ih]

/-- The btoa/atob round trip on latin1 strings. -/
theorem atob_btoa (s : List Char) (h : ∀ c ∈ s, c.toNat < 256) :
    atob (btoa s) = some s := by
  have hb : ∀ b ∈ s.map Char.toNat, b < 256 := by
    intro b hb
    obtain ⟨c, hc, rfl⟩ := List.mem_map.mp hb
    exact h c hc
  rw [atob, btoa, b64Decode_b64Encode (s.map Char.toNat) hb]
  simp only [map_ofNat_toNat s]

/-- Base64 output never contains a dot. -/
theorem b64Encode_no_dot : ∀ bs : List Nat, (∀ b ∈ bs, b < 256) →
    ∀ c ∈ b64Encode bs, c ≠ '.'
  | [], _ => by simp [b64Encode]
  | [b1], h => by
      have hb1 : b1 < 256 := h b1 (by simp)
      simp only [b64Encode, List.mem_cons, List.not_mem_nil, or_false]
      rintro c (rfl | rfl | rfl | rfl)
      · exact sixToChar_ne_dot _ (by omega)
      · exact sixToChar_ne_dot _ (by omega)
      · decide
      · decide
  | [b1, b2], h => by
      have hb1 : b1 < 256 := h b1 (by simp)
      have hb2 : b2 < 256 := h b2 (by simp)
      simp only [b64Encode, List.mem_cons, List.not_mem_nil, or_false]
      rintro c (rfl | rfl | rfl | rfl)
      · exact sixToChar_ne_dot _ (by omega)
      · exact sixToChar_ne_dot _ (by omega)
      · exact sixToChar_ne_dot _ (by omega)
      · decide
  | b1 :: b2 :: b3 :: rest, h => by
      have hb1 : b1 < 256 := h b1 (by simp)
      have hb2 : b2 < 256 := h b2 (by simp)
      have hb3 : b3 < 256 := h b3 (by simp)
      have hrec := b64Encode_no_dot rest (fun b hb => h b (by simp [hb]))
      intro c hc
      match rest, hc with
      | [], hc =>
          simp only [b64Encode, List.mem_cons, List.not_mem_nil, or_false] at hc
          rcases hc with rfl | rfl | rfl | rfl
          · exact sixToChar_ne_dot _ (by omega)
          · exact sixToChar_ne_dot _ (by omega)
          · exact sixToChar_ne_dot _ (by omega)
          · exact sixToChar_ne_dot _ (by omega)
      | r1 :: rs, hc =>
          simp only [b64Encode, List.mem_cons] at hc
          rcases hc with rfl | rfl | rfl | rfl | hm
          · exact sixToChar_ne_dot _ (by omega)
          · exact sixToChar_ne_dot _ (by omega)
          · exact sixToChar_ne_dot _ (by omega)
          · exact sixToChar_ne_dot _ (by omega)
          · exact hrec c hm

/-! ### String.prototype.split, modelled for a single-character separator -/

/-- JavaScript's split on one separator character (keeps empty segments). -/
def splitChar (sep : Char) : List Char → List (List Char)
  | [] => [[]]
  | c :: cs =>
      let r := splitChar sep cs
      if c = sep then [] :: r
      else
        match r with
        | h :: t => (c :: h) :: t
        | [] => [[c]]

/-- Split never returns the empty list of segments. -/
theorem splitChar_ne_nil (sep : Char) : ∀ l, splitChar sep l ≠ []
  | [] => by simp [splitChar]
  | c :: cs => by
      simp only [splitChar]
      by_cases h : c = sep
      · simp [h]
      · simp only [if_neg h]
        match hr : splitChar sep cs with
        | [] => simp
        | h0 :: t0 => simp

/-- A separator-free text is one whole segment. -/
theorem splitChar_no_sep (sep : Char) :
    ∀ l, (∀ c ∈ l, c ≠ sep) → splitChar sep l = [l]
  | [], _ => rfl
  | c :: cs, h => by
      have hc : c ≠ sep := h c (by simp)
      have ih := splitChar_no_sep sep cs (fun x hx => h x (by simp [hx]))
      simp [splitChar, hc, ih]

/-- Split peels one separator-free segment before a separator. -/
theorem splitChar_append (sep : Char) :
    ∀ (a rest : List Char), (∀ c ∈ a, c ≠ sep) →
    splitChar sep (a ++ sep :: rest) = a :: splitChar sep rest
  | [], rest, _ => by simp [splitChar]
  | c :: cs, rest, h => by
      have hc : c ≠ sep := h c (by simp)
      have ih := splitChar_append sep cs rest (fun x hx => h x (by simp [hx]))
      have hne := splitChar_ne_nil sep rest
      simp only [List.cons_append, splitChar, List.append_eq, ih, if_neg hc]

example : splitChar '.' "a.bc.d".toList = ["a".toList, "bc".toList, "d".toList] := by
  decide
example : atob (btoa "mock".toList) = some "mock".toList := by decide
example : btoa "e".toList = "ZQ==".toList := by decide

/-! ### All rendered JSON of latin1 content is latin1 (btoa-safe) -/

mutual
/-- Every string in the value fits in one byte per character. -/
def latin1Val : JsValue → Bool
  | .null => true
  | .bool _ => true
  | .num _ => true
  | .str s => s.all (fun c => c.toNat < 256)
  | .arr xs => latin1Arr xs
  | .obj fs => latin1Obj fs

/-- latin1Val over an element list. -/
def latin1Arr : JsArr → Bool
  | .nil => true
  | .cons v tl => latin1Val v && latin1Arr tl

/-- latin1Val over a property list, keys included. -/
def latin1Obj : JsObj → Bool
  | .nil => true
  | .cons k v tl => k.all (fun c => c.toNat < 256) && latin1Val v && latin1Obj tl
end

/-- Hexadecimal digit characters are one byte. -/
theorem hexDigit_latin1 (n : Nat) (h : n < 16) : (hexDigit n).toNat < 256 := by
  simp only [hexDigit]
  by_cases h10 : n < 10
  · rw [if_pos h10, toNat_ofNat_lt _ (by omega)]
    omega
  · rw [if_neg h10, toNat_ofNat_lt _ (by omega)]
    omega

/-- Escaping a one-byte character produces one-byte characters. -/
theorem escapeChar_latin1 {c : Char} (h : c.toNat < 256) :
    ∀ d ∈ escapeChar c, d.toNat < 256 := by
  intro d hd
  simp only [escapeChar] at hd
  by_cases h1 : c = dquote
  · simp only [if_pos h1, List.mem_cons, List.not_mem_nil, or_false] at hd
    rcases hd with rfl | rfl
    · decide
    · decide
  simp only [if_neg h1] at hd
  by_cases h2 : c = bslash
  · simp only [if_pos h2, List.mem_cons, List.not_mem_nil, or_false] at hd
    rcases hd with rfl | rfl
    · decide
    · decide
  simp only [if_neg h2] at hd
  by_cases h3 : c.toNat = 8
  · simp only [if_pos h3, List.mem_cons, List.not_mem_nil, or_false] at hd
    rcases hd with rfl | rfl
    · decide
    · decide
  simp only [if_neg h3] at hd
  by_cases h4 : c.toNat = 9
  · simp only [if_pos h4, List.mem_cons, List.not_mem_nil, or_false] at hd
    rcases hd with rfl | rfl
    · decide
    · decide
  simp only [if_neg h4] at hd
  by_cases h5 : c.toNat = 10
  · simp only [if_pos h5, List.mem_cons, List.not_mem_nil, or_false] at hd
    rcases hd with rfl | rfl
    · decide
    · decide
  simp only [if_neg h5] at hd
  by_cases h6 : c.toNat = 12
  · simp only [if_pos h6, List.mem_cons, List.not_mem_nil, or_false] at hd
    rcases hd with rfl | rfl
    · decide
    · decide
  simp only [if_neg h6] at hd
  by_cases h7 : c.toNat = 13
  · simp only [if_pos h7, List.mem_cons, List.not_mem_nil, or_false] at hd
    rcases hd with rfl | rfl
    · decide
    · decide
  simp only [if_neg h7] at hd
  by_cases h8 : c.toNat < 32
  · simp only [if_pos h8, List.mem_cons, List.not_mem_nil, or_false] at hd
    rcases hd with rfl | rfl | rfl | rfl | rfl | rfl
    · decide
    · decide
    · decide
    · decide
    · exact hexDigit_latin1 _ (by omega)
    · exact hexDigit_latin1 _ (by omega)
  · simp only [if_neg h8, List.mem_cons, List.not_mem_nil, or_false] at hd
    subst hd
    exact h

/-- Escaping a one-byte string produces one-byte characters. -/
theorem escapeList_latin1 : ∀ (s : List Char), (∀ c ∈ s, c.toNat < 256) →
    ∀ d ∈ escapeList s, d.toNat < 256
  | [], _ => by simp [escapeList]
  | c :: t, h => by
      intro d hd
      simp only [escapeList, List.mem_append] at hd
      rcases hd with hd | hd
      · exact escapeChar_latin1 (h c (by simp)) d hd
      · exact escapeList_latin1 t (fun x hx => h x (by simp [hx])) d hd

/-- Quoted rendered strings of one-byte content are one-byte. -/
theorem strQuoted_latin1 (s : List Char) (h : ∀ c ∈ s, c.toNat < 256) :
    ∀ d ∈ strQuoted s, d.toNat < 256 := by
  intro d hd
  simp only [strQuoted, List.mem_cons, List.mem_append, List.not_mem_nil,
    List.mem_singleton, or_false] at hd
  rcases hd with (rfl | hd) | rfl
  · decide
  · exact escapeList_latin1 s h d hd
  · decide

/-- Digit characters are one byte. -/
theorem isDigitC_latin1 {c : Char} (h : isDigitC c = true) : c.toNat < 256 := by
  have : 48 ≤ c.toNat ∧ c.toNat ≤ 57 := by simpa [isDigitC] using h
  omega

/-- A rendered integer is one-byte characters. -/
theorem intToChars_latin1 (i : Int) : ∀ d ∈ intToChars i, d.toNat < 256 := by
  intro d hd
  simp only [intToChars, List.mem_append] at hd
  rcases hd with hd | hd
  · by_cases hi : i < 0
    · simp only [if_pos hi, List.mem_singleton] at hd
      subst hd
      decide
    · simp [if_neg hi] at hd
  · exact isDigitC_latin1 (natToChars_digits _ d hd)

mutual
/-- Rendered JSON of a latin1 value is latin1, value part. -/
theorem strv_latin1 : ∀ (v : JsValue), latin1Val v = true →
    ∀ d ∈ strv v, d.toNat < 256
  | .null, _ => by
      intro d hd
      simp only [strv, List.mem_cons, List.not_mem_nil, or_false] at hd
      rcases hd with rfl | rfl | rfl | rfl
      all_goals decide
  | .bool true, _ => by
      intro d hd
      simp only [strv, List.mem_cons, List.not_mem_nil, or_false] at hd
      rcases hd with rfl | rfl | rfl | rfl
      all_goals decide
  | .bool false, _ => by
      intro d hd
      simp only [strv, List.mem_cons, List.not_mem_nil, or_false] at hd
      rcases hd with rfl | rfl | rfl | rfl | rfl
      all_goals decide
  | .num n, _ => by
      intro d hd
      exact intToChars_latin1 n d (by simpa [strv] using hd)
  | .str s, h => by
      intro d hd
      have hs : ∀ c ∈ s, c.toNat < 256 := by
        simpa [latin1Val, List.all_eq_true] using h
      exact strQuoted_latin1 s hs d (by simpa [strv] using hd)
  | .arr xs, h => by
      intro d hd
      simp only [strv, List.mem_cons, List.mem_append, List.mem_singleton,
        List.not_mem_nil, or_false] at hd
      rcases hd with (rfl | hd) | rfl
      · decide
      · exact strItems_latin1 xs (by simpa [latin1Val] using h) d hd
      · decide
  | .obj fs, h => by
      intro d hd
      simp only [strv, List.mem_cons, List.mem_append, List.mem_singleton,
        List.not_mem_nil, or_false] at hd
      rcases hd with (rfl | hd) | rfl
      · decide
      · exact strFields_latin1 fs (by simpa [latin1Val] using h) d hd
      · decide

/-- Rendered JSON of a latin1 value is latin1, array part. -/
theorem strItems_latin1 : ∀ (xs : JsArr), latin1Arr xs = true →
    ∀ d ∈ strItems xs, d.toNat < 256
  | .nil, _ => by simp [strItems]
  | .cons v .nil, h => by
      intro d hd
      have hv : latin1Val v = true := by
        simpa [latin1Arr] using h
      exact strv_latin1 v hv d (by simpa [strItems] using hd)
  | .cons v (.cons w tl), h => by
      intro d hd
      have h1 : latin1Val v = true ∧ latin1Arr (.cons w tl) = true := by
        simpa [latin1Arr] using h
      simp only [strItems, List.mem_append, List.mem_cons] at hd
      rcases hd with hd | rfl | hd
      · exact strv_latin1 v h1.1 d hd
      · decide
      · exact strItems_latin1 (.cons w tl) h1.2 d hd

/-- Rendered JSON of a latin1 value is latin1, object part. -/
theorem strFields_latin1 : ∀ (fs : JsObj), latin1Obj fs = true →
    ∀ d ∈ strFields fs, d.toNat < 256
  | .nil, _ => by simp [strFields]
  | .cons k v .nil, h => by
      intro d hd
      have h1 : (∀ c ∈ k, c.toNat < 256) ∧ latin1Val v = true := by
        have := (by simpa [latin1Obj, List.all_eq_true] using h :
          (∀ c ∈ k, c.toNat < 256) ∧ latin1Val v = true ∧ True)
        exact ⟨this.1, this.2.1⟩
      simp only [strFields, List.mem_append, List.mem_cons] at hd
      rcases hd with hd | rfl | hd
      · exact strQuoted_latin1 k h1.1 d hd
      · decide
      · exact strv_latin1 v h1.2 d hd
  | .cons k v (.cons k2 v2 tl), h => by
      intro d hd
      have h1 : (∀ c ∈ k, c.toNat < 256) ∧ latin1Val v = true
          ∧ latin1Obj (.cons k2 v2 tl) = true := by
        simpa [latin1Obj, List.all_eq_true, and_assoc] using h
      have hd' : d ∈ strQuoted k
          ++ (':' :: (strv v ++ (',' :: strFields (.cons k2 v2 tl)))) := by
        simpa [strFields, List.append_assoc] using hd
      rcases List.mem_append.mp hd' with hd1 | hd1
      · exact strQuoted_latin1 k h1.1 d hd1
      · rcases List.mem_cons.mp hd1 with rfl | hd2
        · decide
        · rcases List.mem_append.mp hd2 with hd3 | hd3
          · exact strv_latin1 v h1.2.1 d hd3
          · rcases List.mem_cons.mp hd3 with rfl | hd4
            · decide
            · exact strFields_latin1 (.cons k2 v2 tl) h1.2.2 d hd4
end

/-! ### localStorage, modelled as an association list of raw strings -/

/-- The browser's string key/value store. -/
def Store := List (List Char × List Char)

/-- localStorage.getItem (null when absent, modelled as none). -/
def storeGet : Store → List Char → Option (List Char)
  | [], _ => none
  | (k, v) :: t, key => if k = key then some v else storeGet t key

/-- localStorage.setItem (replace in place, append when absent). -/
def storeSet : Store → List Char → List Char → Store
  | [], key, v => [(key, v)]
  | (k, w) :: t, key, v =>
      if k = key then (key, v) :: t else (k, w) :: storeSet t key v

/-- localStorage.removeItem. -/
def storeRemove : Store → List Char → Store
  | [], _ => []
  | (k, w) :: t, key =>
      if k = key then storeRemove t key else (k, w) :: storeRemove t key

/-- Reading a key just written gives the written value. -/
theorem storeGet_set_self : ∀ (st : Store) (key v : List Char),
    storeGet (storeSet st key v) key = some v
  | [], key, v => by simp [storeSet, storeGet]
  | (k, w) :: t, key, v => by
      by_cases h : k = key
      · simp [storeSet, storeGet, h]
      · simp [storeSet, storeGet, h, storeGet_set_self t key v]

/-- Writing one key leaves every other key's value alone. -/
theorem storeGet_set_other : ∀ (st : Store) (key v key' : List Char),
    key' ≠ key → storeGet (storeSet st key v) key' = storeGet st key'
  | [], key, v, key', h => by simp [storeSet, storeGet, Ne.symm h]
  | (k, w) :: t, key, v, key', h => by
      by_cases hk : k = key
      · subst hk
        simp [storeSet, storeGet, Ne.symm h]
      · by_cases hk' : k = key'
        · subst hk'
          simp [storeSet, storeGet, hk]
        · simp [storeSet, storeGet, hk, hk', storeGet_set_other t key v key' h]

/-- Removing a key makes it absent. -/
theorem storeGet_remove_self : ∀ (st : Store) (key : List Char),
    storeGet (storeRemove st key) key = none
  | [], key => by simp [storeRemove, storeGet]
  | (k, w) :: t, key => by
      by_cases h : k = key
      · simp [storeRemove, storeGet, h, storeGet_remove_self t key]
      · simp [storeRemove, storeGet, h, storeGet_remove_self t key]

/-- Removing one key leaves every other key's value alone. -/
theorem storeGet_remove_other : ∀ (st : Store) (key key' : List Char),
    key' ≠ key → storeGet (storeRemove st key) key' = storeGet st key'
  | [], key, key', h => by simp [storeRemove, storeGet]
  | (k, w) :: t, key, key', h => by
      by_cases hk : k = key
      · subst hk
        simp [storeRemove, storeGet, Ne.symm h, storeGet_remove_other t k key' h]
      · simp [storeRemove, storeGet, hk, storeGet_remove_other t key key' h]

/-! ### StorageUtil (src/js/utils/storage.js) -/

namespace StorageUtil

/-- StorageUtil.set: serialize with JSON.stringify and store.  The
quota-exceeded retry path is not modelled: the store model has no quota, so
setItem always succeeds and set always returns true. -/
def set (st : Store) (key : List Char) (value : JsValue) : Bool × Store :=
  (true, storeSet st key (strv value))

/-- StorageUtil.get: read the raw item; absent gives the default, a parse
failure is caught and gives the default, otherwise the parsed value. -/
def get (st : Store) (key : List Char) (defaultValue : JsValue) : JsValue :=
  match storeGet st key with
  | none => defaultValue
  | some item =>
      match jsonParse item with
      | some v => v
      | none => defaultValue

/-- StorageUtil.remove. -/
def remove (st : Store) (key : List Char) : Bool × Store :=
  (true, storeRemove st key)

/-- StorageUtil.append: read with default empty array, refuse non-arrays,
push and store back. -/
def append (st : Store) (key : List Char) (value : JsValue) : Bool × Store :=
  match get st key (.arr .nil) with
  | .arr xs => set st key (.arr (arrPush xs value))
  | _ => (false, st)

end StorageUtil

/-! ### Configuration constants (src/js/utils/api.js, CONFIG object) -/

namespace CONFIG

namespace STORAGE_KEYS

/-- CONFIG.STORAGE_KEYS.AUTH_TOKEN. -/
def AUTH_TOKEN : List Char := "db_auth_token".toList

/-- CONFIG.STORAGE_KEYS.USER_DATA. -/
def USER_DATA : List Char := "db_user_data".toList

/-- CONFIG.STORAGE_KEYS.USERS. -/
def USERS : List Char := "db_users".toList

/-- CONFIG.STORAGE_KEYS.ADMIN_SESSION. -/
def ADMIN_SESSION : List Char := "db_admin_session".toList

/-- CONFIG.STORAGE_KEYS.REMEMBER_ME. -/
def REMEMBER_ME : List Char := "db_remember_me".toList

end STORAGE_KEYS

namespace ADMIN

/-- CONFIG.ADMIN.USERNAME. -/
def USERNAME : List Char := "admin".toList

/-- CONFIG.ADMIN.PASSWORD. -/
def PASSWORD : List Char := "admin12345".toList

/-- CONFIG.ADMIN.EMAIL. -/
def EMAIL : List Char := "admin@dbgeneralconstruction.com.et".toList

end ADMIN

namespace SESSION

/-- CONFIG.SESSION.TIMEOUT: thirty minutes in milliseconds. -/
def TIMEOUT : Int := 30 * 60 * 1000

/-- CONFIG.SESSION.WARNING_TIME: five minutes in milliseconds. -/
def WARNING_TIME : Int := 5 * 60 * 1000

end SESSION

end CONFIG

/-! ### AuthUtil (src/js/utils/auth.js) -/

/-- The JavaScript less-than between a value and a number.  String-to-number
coercion is not modelled: every expiry this code writes and every
counterexample read is a JSON number. -/
def jsLtInt (v : JsValue) (n : Int) : Bool :=
  match v with
  | .num m => m < n
  | _ => false

/-- Strict-equality comparison of an object field against a string
(undefined or non-string fields compare false). -/
def fieldIsStr (u : JsValue) (key : List Char) (s : List Char) : Bool :=
  match getField u key with
  | some (.str t) => t = s
  | _ => false

/-- Truthiness of an object field (undefined is falsy). -/
def fieldTruthy (u : JsValue) (key : List Char) : Bool :=
  match getField u key with
  | some v => jsTruthy v
  | none => false

namespace AuthUtil

/-- The fixed JWT header object. -/
def jwtHeader : JsValue :=
  .obj (.cons "alg".toList (.str "HS256".toList)
    (.cons "typ".toList (.str "JWT".toList) .nil))

/-- The token lifetime: expiry || CONFIG.SESSION.TIMEOUT (a falsy zero
falls back to the default, like a missing argument). -/
def tokenExpDelta (expiry : Option Int) : Int :=
  match expiry with
  | some e => if e = 0 then CONFIG.SESSION.TIMEOUT else e
  | none => CONFIG.SESSION.TIMEOUT

/-- The token body: the payload spread into an object literal together
with iat and exp. -/
def tokenBody (payload : JsObj) (expiry : Option Int) (now : Int) : JsValue :=
  .obj (objSetField (objSetField payload "iat".toList (.num now)) "exp".toList
    (.num (now + tokenExpDelta expiry)))

/-- AuthUtil.generateToken: a mock JWT whose three dot-separated segments
are base64 of the fixed header, of the payload extended with iat and exp,
and of a constant-prefixed timestamp. -/
def generateToken (payload : JsObj) (expiry : Option Int) (now : Int) : List Char :=
  let header := btoa (strv jwtHeader)
  let body := btoa (strv (tokenBody payload expiry now))
  let signature := btoa ("mock-signature-".toList ++ intToChars now)
  header ++ '.' :: body ++ '.' :: signature

/-- AuthUtil.decodeToken: a falsy or non-string token decodes to null; the
text must split on dots into exactly three parts; the middle part is
base64-decoded and JSON-parsed, any throw being caught to null. -/
def decodeToken (token : JsValue) : Option JsValue :=
  match token with
  | .str s =>
      if s.isEmpty then none
      else
        let parts := splitChar '.' s
        if parts.length ≠ 3 then none
        else
          match atob (parts.getD 1 []) with
          | none => none
          | some decoded => jsonParse decoded
  | _ => none

/-- AuthUtil.verifyToken: false for an undecodable or falsy payload; false
when the payload carries a truthy exp in the past; true otherwise — in
particular true when exp is absent or falsy. -/
def verifyToken (token : JsValue) (now : Int) : Bool :=
  match decodeToken token with
  | none => false
  | some payload =>
      if !jsTruthy payload then false
      else
        match getField payload "exp".toList with
        | some e => if jsTruthy e && jsLtInt e now then false else true
        | none => true

/-- AuthUtil.initSession: store a fresh session record.  The DOM activity
listeners and the interval handle are event wiring, not storage state. -/
def initSession (st : Store) (now : Int) : Store :=
  (StorageUtil.set st CONFIG.STORAGE_KEYS.ADMIN_SESSION
    (.obj (.cons "startTime".toList (.num now)
      (.cons "lastActivity".toList (.num now)
        (.cons "warningShown".toList (.bool false) .nil))))).2

/-- The result record a login path returns. -/
structure AuthResult where
  success : Bool
  user : Option JsValue
  token : Option (List Char)
  message : List Char
deriving DecidableEq

/-- The admin user object authenticateAdmin builds. -/
def adminUser : JsValue :=
  .obj (.cons "id".toList (.str "admin-001".toList)
    (.cons "username".toList (.str "admin".toList)
      (.cons "email".toList (.str "admin@dbconstruction.com".toList)
        (.cons "name".toList (.str "Administrator".toList)
          (.cons "role".toList (.str "admin".toList)
            (.cons "isActive".toList (.bool true) .nil))))))

/-- AuthUtil.authenticateAdmin: check the hardcoded pair, then store token
and user data and initialize the session. -/
def authenticateAdmin (username password : List Char) (st : Store) (now : Int) :
    AuthResult × Store :=
  if username = "admin".toList ∧ password = "admin12345".toList then
    let user := adminUser
    let token := generateToken (.cons "userId".toList (.str "admin-001".toList)
      (.cons "role".toList (.str "admin".toList) .nil)) none now
    let st1 := (StorageUtil.set st CONFIG.STORAGE_KEYS.AUTH_TOKEN (.str token)).2
    let st2 := (StorageUtil.set st1 CONFIG.STORAGE_KEYS.USER_DATA user).2
    let st3 := initSession st2 now
    ({ success := true, user := some user, token := some token,
       message := "Admin login successful".toList }, st3)
  else
    ({ success := false, user := none, token := none,
       message := "Invalid admin credentials".toList }, st)

/-- AuthUtil.getCurrentUser: null without a truthy, verifying token;
otherwise the stored user data. -/
def getCurrentUser (st : Store) (now : Int) : JsValue :=
  let token := StorageUtil.get st CONFIG.STORAGE_KEYS.AUTH_TOKEN .null
  if !jsTruthy token || !verifyToken token now then .null
  else StorageUtil.get st CONFIG.STORAGE_KEYS.USER_DATA .null

/-- AuthUtil.isAuthenticated: a truthy stored token that verifies.  (The
JavaScript returns the falsy token itself when there is none; only its
truthiness is ever used, so the model returns the coerced boolean.) -/
def isAuthenticated (st : Store) (now : Int) : Bool :=
  let token := StorageUtil.get st CONFIG.STORAGE_KEYS.AUTH_TOKEN .null
  jsTruthy token && verifyToken token now

/-- AuthUtil.logout: drop token, user data, session record and remember-me
flag; the try block cannot throw in the store model, so it returns true.
clearSession only clears the interval handle, which is not storage state. -/
def logout (st : Store) : Bool × Store :=
  let st1 := (StorageUtil.remove st CONFIG.STORAGE_KEYS.AUTH_TOKEN).2
  let st2 := (StorageUtil.remove st1 CONFIG.STORAGE_KEYS.USER_DATA).2
  let st3 := (StorageUtil.remove st2 CONFIG.STORAGE_KEYS.ADMIN_SESSION).2
  let st4 := (StorageUtil.remove st3 CONFIG.STORAGE_KEYS.REMEMBER_ME).2
  (true, st4)

/-- AuthUtil.updateActivity: refresh lastActivity and clear the warning
flag when a session record exists. -/
def updateActivity (st : Store) (now : Int) : Store :=
  let session := StorageUtil.get st CONFIG.STORAGE_KEYS.ADMIN_SESSION .null
  if jsTruthy session then
    (StorageUtil.set st CONFIG.STORAGE_KEYS.ADMIN_SESSION
      (jsSetField (jsSetField session "lastActivity".toList (.num now))
        "warningShown".toList (.bool false))).2
  else st

/-- Date.now() minus session.lastActivity; a missing or non-numeric
lastActivity gives NaN, whose comparisons are all false (none). -/
def sessionInactive (session : JsValue) (now : Int) : Option Int :=
  match getField session "lastActivity".toList with
  | some (.num la) => some (now - la)
  | _ => none

/-- A NaN-aware at-least comparison. -/
def geOpt (x : Option Int) (bound : Int) : Bool :=
  match x with
  | some i => bound ≤ i
  | none => false

/-- One tick of the startSessionChecker interval callback.  confirmStay is
the user's answer to the warning dialog (showSessionWarning's confirm, which
updates activity when accepted).  The admin-path redirect and alert are
browser navigation, not state. -/
def sessionCheck (st : Store) (now : Int) (confirmStay : Bool) : Store :=
  if !isAuthenticated st now then st
  else
    let session := StorageUtil.get st CONFIG.STORAGE_KEYS.ADMIN_SESSION .null
    if !jsTruthy session then st
    else
      let inactiveTime := sessionInactive session now
      let st1 :=
        if geOpt inactiveTime (CONFIG.SESSION.TIMEOUT - CONFIG.SESSION.WARNING_TIME)
            && !fieldTruthy session "warningShown".toList then
          let stW := if confirmStay then updateActivity st now else st
          (StorageUtil.set stW CONFIG.STORAGE_KEYS.ADMIN_SESSION
            (jsSetField session "warningShown".toList (.bool true))).2
        else st
      if geOpt inactiveTime CONFIG.SESSION.TIMEOUT then (logout st1).2 else st1

end AuthUtil

/-- A property for an object literal whose value may be undefined:
JSON.stringify drops undefined-valued properties, so the property is
modelled as absent when the source field is missing. -/
def objFieldOpt (key : List Char) (v : Option JsValue) (tl : JsObj) : JsObj :=
  match v with
  | some x => .cons key x tl
  | none => tl

namespace AuthUtil

/-- The predicate of the users.find callback in loginLocalStorage:
username or email matches, password matches, and the account is active. -/
def userMatches (u : JsValue) (username password : List Char) : Bool :=
  (fieldIsStr u "username".toList username || fieldIsStr u "email".toList username)
    && fieldIsStr u "password".toList password
    && fieldTruthy u "isActive".toList

/-- Array.prototype.find over the stored user list. -/
def findUser (users : JsArr) (username password : List Char) : Option JsValue :=
  match users with
  | .nil => none
  | .cons u tl =>
      if userMatches u username password then some u
      else findUser tl username password

/-- The in-place lastLogin update of the found user inside the users array
(the found object is aliased into the array, so mutating it mutates the
array that is then stored back). -/
def updateFoundUser (users : JsArr) (username password : List Char)
    (nowIso : List Char) : JsArr :=
  match users with
  | .nil => .nil
  | .cons u tl =>
      if userMatches u username password then
        .cons (jsSetField u "lastLogin".toList (.str nowIso)) tl
      else .cons u (updateFoundUser tl username password nowIso)

/-- The user object the admin branch of loginLocalStorage builds. -/
def localAdminUser : JsValue :=
  .obj (.cons "id".toList (.str "admin-001".toList)
    (.cons "username".toList (.str CONFIG.ADMIN.USERNAME)
      (.cons "email".toList (.str CONFIG.ADMIN.EMAIL)
        (.cons "name".toList (.str "Dale Melaku".toList)
          (.cons "role".toList (.str "admin".toList)
            (.cons "isActive".toList (.bool true) .nil))))))

/-- AuthUtil.loginLocalStorage: the pure-local login path.  First the
CONFIG.ADMIN credential check; otherwise a lookup in the stored user list.
nowIso stands for new Date().toISOString() (clock formatting is a platform
primitive).  A non-array stored user list would make Array.find throw,
which no caller catches; it is modelled as a failed login. -/
def loginLocalStorage (username password : List Char) (rememberMe : Bool)
    (st : Store) (now : Int) (nowIso : List Char) : AuthResult × Store :=
  if username = CONFIG.ADMIN.USERNAME ∧ password = CONFIG.ADMIN.PASSWORD then
    let user := localAdminUser
    let tokenExpiry : Int :=
      if rememberMe then 30 * 24 * 60 * 60 * 1000 else CONFIG.SESSION.TIMEOUT
    let token := generateToken (.cons "userId".toList (.str "admin-001".toList)
      (.cons "role".toList (.str "admin".toList) .nil)) (some tokenExpiry) now
    let st1 := (StorageUtil.set st CONFIG.STORAGE_KEYS.AUTH_TOKEN (.str token)).2
    let st2 := (StorageUtil.set st1 CONFIG.STORAGE_KEYS.USER_DATA user).2
    let st3 :=
      if rememberMe then
        (StorageUtil.set st2 CONFIG.STORAGE_KEYS.REMEMBER_ME
          (.obj (.cons "enabled".toList (.bool true)
            (.cons "expiry".toList (.num (now + tokenExpiry)) .nil)))).2
      else st2
    let st4 := initSession st3 now
    ({ success := true, user := some user, token := some token,
       message := "Login successful".toList }, st4)
  else
    match StorageUtil.get st CONFIG.STORAGE_KEYS.USERS (.arr .nil) with
    | .arr users =>
        match findUser users username password with
        | some u =>
            let tokenExpiry : Int :=
              if rememberMe then 30 * 24 * 60 * 60 * 1000 else CONFIG.SESSION.TIMEOUT
            let token := generateToken
              (objFieldOpt "userId".toList (getField u "id".toList)
                (objFieldOpt "role".toList (getField u "role".toList) .nil))
              (some tokenExpiry) now
            let userData : JsValue :=
              match u with
              | .obj fs => .obj (objRemoveField fs "password".toList)
              | other => other
            let st1 := (StorageUtil.set st CONFIG.STORAGE_KEYS.AUTH_TOKEN (.str token)).2
            let st2 := (StorageUtil.set st1 CONFIG.STORAGE_KEYS.USER_DATA userData).2
            let st3 :=
              if rememberMe then
                (StorageUtil.set st2 CONFIG.STORAGE_KEYS.REMEMBER_ME
                  (.obj (.cons "enabled".toList (.bool true)
                    (.cons "expiry".toList (.num (now + tokenExpiry)) .nil)))).2
              else st2
            let st4 := (StorageUtil.set st3 CONFIG.STORAGE_KEYS.USERS
              (.arr (updateFoundUser users username password nowIso))).2
            let st5 := initSession st4 now
            ({ success := true, user := some userData, token := some token,
               message := "Login successful".toList }, st5)
        | none =>
            ({ success := false, user := none, token := none,
               message := "Invalid username or password".toList }, st)
    | _ =>
        ({ success := false, user := none, token := none,
           message := "Invalid username or password".toList }, st)

end AuthUtil

/-! ### ValidationUtil (the validation utility source file) -/

/-- The JavaScript whitespace class (String.prototype.trim and regex
backslash-s): ASCII whitespace, NBSP, the unicode space separators, the
line separators and the BOM. -/
def isJsWs (c : Char) : Bool :=
  let n := c.toNat
  n = 9 || n = 10 || n = 11 || n = 12 || n = 13 || n = 32 || n = 160
    || n = 5760 || (8192 ≤ n && n ≤ 8202) || n = 8232 || n = 8233
    || n = 8239 || n = 8287 || n = 12288 || n = 65279

/-- String.prototype.trim. -/
def trimJS (s : List Char) : List Char :=
  ((s.dropWhile isJsWs).reverse.dropWhile isJsWs).reverse

/-- ASCII letters and digits. -/
def isAlnumC (c : Char) : Bool :=
  (48 ≤ c.toNat && c.toNat ≤ 57) || (65 ≤ c.toNat && c.toNat ≤ 90)
    || (97 ≤ c.toNat && c.toNat ≤ 122)

/-- The character class of the email regex's local part. -/
def isLocalChar (c : Char) : Bool :=
  isAlnumC c ||
    ([33, 35, 36, 37, 38, 39, 42, 43, 45, 46, 47, 61, 63, 94, 95, 96,
      123, 124, 125, 126] : List Nat).contains c.toNat

/-- One domain label of the email regex: one to sixty-three characters,
letters and digits at both ends, hyphens allowed inside. -/
def labelOk (l : List Char) : Bool :=
  match l with
  | [] => false
  | c :: rest =>
      isAlnumC c &&
        (match rest with
         | [] => true
         | _ :: _ =>
             l.length ≤ 63 && isAlnumC (rest.getLastD c)
               && rest.dropLast.all (fun x => isAlnumC x || x = '-'))

/-- The language of the email regex in ValidationUtil.validateEmail: a
nonempty local part of local characters, one at-sign, and dot-separated
valid labels. -/
def emailPattern (s : List Char) : Bool :=
  match splitChar '@' s with
  | [localPart, domain] =>
      !localPart.isEmpty && localPart.all isLocalChar
        && (splitChar '.' domain).all labelOk
  | _ => false

/-- The language of the phone regex: +251 or 0, then 7 or 9, then eight
digits. -/
def phonePattern (l : List Char) : Bool :=
  match l with
  | '+' :: '2' :: '5' :: '1' :: c :: rest =>
      (c = '7' || c = '9') && rest.length = 8 && rest.all isDigitC
  | '0' :: c :: rest =>
      (c = '7' || c = '9') && rest.length = 8 && rest.all isDigitC
  | _ => false

namespace ValidationUtil

/-- ValidationUtil.validateEmail on a string: falsy (empty) strings fail,
otherwise the trimmed text must match the email pattern. -/
def validateEmail (email : List Char) : Bool :=
  if email.isEmpty then false
  else emailPattern (trimJS email)

/-- validateEmail on an arbitrary form value: non-strings fail the
typeof guard. -/
def validateEmailVal (value : Option JsValue) : Bool :=
  match value with
  | some (.str s) => validateEmail s
  | _ => false

/-- ValidationUtil.validatePhone on a string: strip whitespace and
hyphens, then match the phone pattern. -/
def validatePhone (phone : List Char) : Bool :=
  if phone.isEmpty then false
  else phonePattern (phone.filter (fun c => !(isJsWs c || c = '-')))

/-- validatePhone on an arbitrary form value. -/
def validatePhoneVal (value : Option JsValue) : Bool :=
  match value with
  | some (.str s) => validatePhone s
  | _ => false

/-- ValidationUtil.required: null and undefined fail, strings need
nonblank content, arrays need an element, everything else passes. -/
def required (value : Option JsValue) : Bool :=
  match value with
  | none => false
  | some .null => false
  | some (.str s) => !(trimJS s).isEmpty
  | some (.arr .nil) => false
  | some (.arr (.cons _ _)) => true
  | some _ => true

/-- ValidationUtil.minLength: falsy or non-string values fail, otherwise
the trimmed length must reach the minimum. -/
def minLength (value : Option JsValue) (min : Int) : Bool :=
  match value with
  | some (.str s) => if s.isEmpty then false else min ≤ ((trimJS s).length : Int)
  | _ => false

/-- ValidationUtil.maxLength: falsy or non-string values pass, otherwise
the trimmed length must not exceed the maximum. -/
def maxLength (value : Option JsValue) (max : Int) : Bool :=
  match value with
  | some (.str s) => if s.isEmpty then true else ((trimJS s).length : Int) ≤ max
  | _ => true

/-- Integer-string content for the Number coercion. -/
def strToNumber (s : List Char) : Option Int :=
  let t := trimJS s
  match t with
  | [] => some 0
  | '-' :: rest =>
      if !rest.isEmpty && rest.all isDigitC then some (-(digitsVal rest : Int))
      else none
  | '+' :: rest =>
      if !rest.isEmpty && rest.all isDigitC then some ((digitsVal rest : Int))
      else none
  | _ => if t.all isDigitC then some ((digitsVal t : Int)) else none

/-- The Number coercion on a form value, with NaN as none.  Fractional,
exponent and hexadecimal literals, and array stringification, are outside
the integer model and are treated as NaN; the rule parameters and inputs
in this repository are plain integers. -/
def toNumber (value : Option JsValue) : Option Int :=
  match value with
  | none => none
  | some .null => some 0
  | some (.bool b) => some (if b then 1 else 0)
  | some (.num n) => some n
  | some (.str s) => strToNumber s
  | some (.arr _) => none
  | some (.obj _) => none

/-- ValidationUtil.numberRange. -/
def numberRange (value : Option JsValue) (min max : Int) : Bool :=
  match toNumber value with
  | none => false
  | some n => min ≤ n && n ≤ max

/-- ValidationUtil.positiveNumber. -/
def positiveNumber (value : Option JsValue) : Bool :=
  match toNumber value with
  | none => false
  | some n => 0 < n

/-- A validation rule as validateForm dispatches on its type string; the
parameters ride along, and a type string the switch does not know is
unknown (it only warns and counts as passing). -/
inductive VRule where
  | required
  | email
  | phone
  | minLength (min : Int)
  | maxLength (max : Int)
  | numberRange (min max : Int)
  | positiveNumber
  | unknown
deriving DecidableEq

/-- One entry of a field's rule list: the rule and its optional custom
message. -/
structure FieldRule where
  rule : VRule
  message : Option (List Char)
deriving DecidableEq

/-- ValidationUtil.getErrorMessage: the default message per rule. -/
def getErrorMessage (field : List Char) (r : VRule) : List Char :=
  match r with
  | .required => field ++ " is required".toList
  | .email => "Please enter a valid email address".toList
  | .phone => "Please enter a valid phone number".toList
  | .minLength min =>
      field ++ " must be at least ".toList ++ intToChars min ++ " characters".toList
  | .maxLength max =>
      field ++ " must not exceed ".toList ++ intToChars max ++ " characters".toList
  | .numberRange min max =>
      field ++ " must be between ".toList ++ intToChars min ++ " and ".toList
        ++ intToChars max
  | .positiveNumber => field ++ " must be a positive number".toList
  | .unknown => field ++ " is invalid".toList

/-- The switch statement of validateForm on one rule. -/
def evalRule (value : Option JsValue) (r : VRule) : Bool :=
  match r with
  | .required => required value
  | .email => validateEmailVal value
  | .phone => validatePhoneVal value
  | .minLength min => minLength value min
  | .maxLength max => maxLength value max
  | .numberRange min max => numberRange value min max
  | .positiveNumber => positiveNumber value
  | .unknown => true

/-- The message recorded for a failing rule: the custom message unless it
is falsy (absent or empty), else the default. -/
def msgOf (field : List Char) (fr : FieldRule) : List Char :=
  match fr.message with
  | some m => if m.isEmpty then getErrorMessage field fr.rule else m
  | none => getErrorMessage field fr.rule

/-- Form-data field access (absent fields are undefined). -/
def lookupData : List (List Char × JsValue) → List Char → Option JsValue
  | [], _ => none
  | (k, v) :: t, key => if k = key then some v else lookupData t key

/-- The inner loop of validateForm: the first failing rule's message, or
none when every rule passes (the break at the first failure). -/
def firstFieldError (field : List Char) (value : Option JsValue) :
    List FieldRule → Option (List Char)
  | [] => none
  | fr :: rest =>
      if evalRule value fr.rule then firstFieldError field value rest
      else some (msgOf field fr)

/-- validateForm's result: the flag and the errors object (an insertion-
ordered association list, as JavaScript object keys are). -/
structure VFResult where
  isValid : Bool
  errors : List (List Char × List Char)
deriving DecidableEq

/-- The outer loop of validateForm over the declared fields. -/
def validateFormAux (data : List (List Char × JsValue)) :
    List (List Char × List FieldRule) → Bool → List (List Char × List Char) → VFResult
  | [], valid, errs => ⟨valid, errs⟩
  | (field, frs) :: rest, valid, errs =>
      match firstFieldError field (lookupData data field) frs with
      | none => validateFormAux data rest valid errs
      | some m => validateFormAux data rest false (errs ++ [(field, m)])

/-- ValidationUtil.validateForm. -/
def validateForm (data : List (List Char × JsValue))
    (rules : List (List Char × List FieldRule)) : VFResult :=
  validateFormAux data rules true []

end ValidationUtil

example : ValidationUtil.validateEmail "user@example.com".toList = true := by decide
example : ValidationUtil.validateEmail "foo@".toList = false := by decide
example : ValidationUtil.validatePhone "+251-911-234-567".toList = true := by decide
example : ValidationUtil.validatePhone "0912345678".toList = true := by decide

/-! ### The claims -/

/-- C4.  For every key and every JSON value, a StorageUtil.set followed by
a StorageUtil.get on the same key returns a value equal to the one stored:
the round trip through JSON serialization preserves the value.  (JSON
numbers are integers in this model; the claim's JSON-serializable values
are exactly the JsValue type.) -/
theorem claim_C4 (st : Store) (key : List Char) (v : JsValue) :
    StorageUtil.get (StorageUtil.set st key v).2 key .null = v := by
  simp only [StorageUtil.set, StorageUtil.get, storeGet_set_self, jsonParse_strv]

/-- C10.  StorageUtil.get is total and never throws: an absent key gives
the supplied default, stored text that parses gives the parsed value, and
stored text that does not parse gives the default instead of propagating
the parse error. -/
theorem claim_C10 (st : Store) (key : List Char) (d : JsValue) :
    (storeGet st key = none → StorageUtil.get st key d = d)
  ∧ (∀ raw v, storeGet st key = some raw → jsonParse raw = some v →
      StorageUtil.get st key d = v)
  ∧ (∀ raw, storeGet st key = some raw → jsonParse raw = none →
      StorageUtil.get st key d = d) := by
  refine ⟨?_, ?_, ?_⟩
  · intro h
    simp [StorageUtil.get, h]
  · intro raw v h hp
    simp [StorageUtil.get, h, hp]
  · intro raw h hp
    simp [StorageUtil.get, h, hp]

/-- C10, witnessed: an empty store gives the default, a stored "3" parses
to 3, and the unparsable stored text "undefined" gives the default. -/
theorem claim_C10_witness :
    StorageUtil.get [] "k".toList (.num 7) = .num 7
  ∧ StorageUtil.get [("k".toList, "3".toList)] "k".toList (.num 7) = .num 3
  ∧ StorageUtil.get [("k".toList, "undefined".toList)] "k".toList (.num 7) = .num 7 := by
  refine ⟨?_, ?_, ?_⟩
  · exact (claim_C10 [] "k".toList (.num 7)).1 (by rfl)
  · exact (claim_C10 [("k".toList, "3".toList)] "k".toList (.num 7)).2.1
      "3".toList (.num 3) (by rfl) (by decide)
  · exact (claim_C10 [("k".toList, "undefined".toList)] "k".toList (.num 7)).2.2
      "undefined".toList (by rfl) (by decide)

/-- C7.  When the value stored under a key parses to a non-array (object,
number, string, null, or boolean), StorageUtil.append returns false and
leaves the store unchanged, whatever value was being appended. -/
theorem claim_C7 (st : Store) (key raw : List Char) (v x : JsValue)
    (hget : storeGet st key = some raw) (hparse : jsonParse raw = some v)
    (harr : isArray v = false) :
    StorageUtil.append st key x = (false, st) := by
  have hg : StorageUtil.get st key (.arr .nil) = v := by
    simp [StorageUtil.get, hget, hparse]
  rw [StorageUtil.append, hg]
  cases v with
  | arr xs => simp [isArray] at harr
  | null => rfl
  | bool b => rfl
  | num n => rfl
  | str s => rfl
  | obj fs => rfl

/-- C7, witnessed: appending to a stored empty object fails and leaves the
store as it was. -/
theorem claim_C7_witness :
    StorageUtil.append [("log".toList, (lbrace :: [rbrace]))] "log".toList (.num 1)
      = (false, [("log".toList, (lbrace :: [rbrace]))]) :=
  claim_C7 _ _ (lbrace :: [rbrace]) (.obj .nil) (.num 1) (by rfl) (by decide) (by decide)

/-- C5.  validateEmail rejects every string whose trimmed text does not
match the accepted email pattern, rejects the specific inputs at-less,
local-less and empty, and accepts a well-formed address. -/
theorem claim_C5 :
    (∀ s : List Char, emailPattern (trimJS s) = false →
      ValidationUtil.validateEmail s = false)
  ∧ ValidationUtil.validateEmail "foo@".toList = false
  ∧ ValidationUtil.validateEmail "@bar.com".toList = false
  ∧ ValidationUtil.validateEmail "".toList = false
  ∧ ValidationUtil.validateEmail "user@example.com".toList = true := by
  refine ⟨?_, by decide, by decide, by decide, by decide⟩
  intro s h
  rw [ValidationUtil.validateEmail]
  by_cases he : s.isEmpty
  · simp [he]
  · simp [he, h]

/-- C5, witnessed: the pattern rejects "foo@" and validateEmail follows. -/
theorem claim_C5_witness :
    emailPattern (trimJS "foo@".toList) = false
  ∧ ValidationUtil.validateEmail "foo@".toList = false :=
  ⟨by decide, claim_C5.1 "foo@".toList (by decide)⟩

/-! ### Decoding a generated token -/

/-- btoa output of a latin1 text contains no dot. -/
theorem btoa_no_dot (s : List Char) (h : ∀ c ∈ s, c.toNat < 256) :
    ∀ c ∈ btoa s, c ≠ '.' := by
  intro c hc
  refine b64Encode_no_dot (s.map Char.toNat) ?_ c hc
  intro b hb
  obtain ⟨d, hd, rfl⟩ := List.mem_map.mp hb
  exact h d hd

/-- A list with a cons in the middle is nonempty. -/
theorem isEmpty_append_cons (a : List Char) (c : Char) (b : List Char) :
    (a ++ c :: b).isEmpty = false := by
  cases a <;> simp

/-- The signature segment's text is latin1. -/
theorem sigText_latin1 (now : Int) :
    ∀ c ∈ "mock-signature-".toList ++ intToChars now, c.toNat < 256 := by
  have hpre : ∀ c ∈ "mock-signature-".toList, c.toNat < 256 := by decide
  intro c hc
  rcases List.mem_append.mp hc with hc | hc
  · exact hpre c hc
  · exact intToChars_latin1 now c hc

/-- AuthUtil.decodeToken undoes AuthUtil.generateToken: the decoded
payload is the token body, whenever the payload content is latin1 (every
payload the repository builds is ASCII). -/
theorem decodeToken_generateToken (payload : JsObj) (expiry : Option Int) (now : Int)
    (hl : latin1Val (AuthUtil.tokenBody payload expiry now) = true) :
    AuthUtil.decodeToken (.str (AuthUtil.generateToken payload expiry now))
      = some (AuthUtil.tokenBody payload expiry now) := by
  have hHl : ∀ c ∈ strv AuthUtil.jwtHeader, c.toNat < 256 :=
    strv_latin1 AuthUtil.jwtHeader (by decide)
  have hBl : ∀ c ∈ strv (AuthUtil.tokenBody payload expiry now), c.toNat < 256 :=
    strv_latin1 _ hl
  have hH := btoa_no_dot _ hHl
  have hB := btoa_no_dot _ hBl
  have hS := btoa_no_dot _ (sigText_latin1 now)
  have hshape : AuthUtil.generateToken payload expiry now
      = btoa (strv AuthUtil.jwtHeader)
        ++ '.' :: (btoa (strv (AuthUtil.tokenBody payload expiry now))
          ++ '.' :: btoa ("mock-signature-".toList ++ intToChars now)) := by
    simp [AuthUtil.generateToken]
  rw [AuthUtil.decodeToken, hshape, isEmpty_append_cons]
  simp only [Bool.false_eq_true, if_false]
  rw [splitChar_append '.' _ _ hH, splitChar_append '.' _ _ hB,
    splitChar_no_sep '.' _ hS]
  rw [if_neg (by simp)]
  rw [show ([btoa (strv AuthUtil.jwtHeader),
      btoa (strv (AuthUtil.tokenBody payload expiry now)),
      btoa ("mock-signature-".toList ++ intToChars now)].getD 1 ([] : List Char))
      = btoa (strv (AuthUtil.tokenBody payload expiry now)) from rfl]
  rw [atob_btoa _ hBl]
  simp only [jsonParse_strv]

/-- A generated token is a nonempty string. -/
theorem generateToken_ne_nil (payload : JsObj) (expiry : Option Int) (now : Int) :
    (AuthUtil.generateToken payload expiry now).isEmpty = false := by
  have hshape : AuthUtil.generateToken payload expiry now
      = btoa (strv AuthUtil.jwtHeader)
        ++ '.' :: (btoa (strv (AuthUtil.tokenBody payload expiry now))
          ++ '.' :: btoa ("mock-signature-".toList ++ intToChars now)) := by
    simp [AuthUtil.generateToken]
  rw [hshape, isEmpty_append_cons]

/-- C1.  Authenticating with the configured admin pair makes
isAuthenticated true at the same instant, and getCurrentUser returns a
user whose role field is admin. -/
theorem claim_C1 (st : Store) (now : Int) (hnow : 0 ≤ now) :
    AuthUtil.isAuthenticated
        (AuthUtil.authenticateAdmin "admin".toList "admin12345".toList st now).2 now
      = true
  ∧ getField (AuthUtil.getCurrentUser
        (AuthUtil.authenticateAdmin "admin".toList "admin12345".toList st now).2 now)
      "role".toList = some (.str "admin".toList) := by
  set pay : JsObj := .cons "userId".toList (.str "admin-001".toList)
    (.cons "role".toList (.str "admin".toList) .nil) with hpay
  set tok := AuthUtil.generateToken pay none now with htok
  have hl : latin1Val (AuthUtil.tokenBody pay none now) = true := by
    rw [hpay]
    rfl
  have hbody : AuthUtil.tokenBody pay none now
      = .obj (.cons "userId".toList (.str "admin-001".toList)
          (.cons "role".toList (.str "admin".toList)
            (.cons "iat".toList (.num now)
              (.cons "exp".toList (.num (now + CONFIG.SESSION.TIMEOUT)) .nil)))) := by
    rw [hpay]
    rfl
  have hdec := decodeToken_generateToken pay none now hl
  have hlt : jsLtInt (.num (now + CONFIG.SESSION.TIMEOUT)) now = false := by
    simp [jsLtInt, CONFIG.SESSION.TIMEOUT]
  have hver : AuthUtil.verifyToken (.str tok) now = true := by
    rw [AuthUtil.verifyToken, htok, hdec, hbody]
    simp +decide [jsTruthy, getField, objGet, hlt]
  have hstate : (AuthUtil.authenticateAdmin "admin".toList "admin12345".toList st now).2
      = storeSet (storeSet (storeSet st CONFIG.STORAGE_KEYS.AUTH_TOKEN
          (strv (.str tok))) CONFIG.STORAGE_KEYS.USER_DATA (strv AuthUtil.adminUser))
          CONFIG.STORAGE_KEYS.ADMIN_SESSION
          (strv (.obj (.cons "startTime".toList (.num now)
            (.cons "lastActivity".toList (.num now)
              (.cons "warningShown".toList (.bool false) .nil))))) := by
    rw [AuthUtil.authenticateAdmin, if_pos ⟨rfl, rfl⟩]
    simp [AuthUtil.initSession, StorageUtil.set, htok, hpay]
  have hgett : StorageUtil.get
      ((AuthUtil.authenticateAdmin "admin".toList "admin12345".toList st now).2)
      CONFIG.STORAGE_KEYS.AUTH_TOKEN .null = .str tok := by
    rw [hstate]
    simp only [StorageUtil.get]
    rw [storeGet_set_other _ _ _ _ (by decide), storeGet_set_other _ _ _ _ (by decide),
      storeGet_set_self]
    simp only [jsonParse_strv]
  have hgetu : StorageUtil.get
      ((AuthUtil.authenticateAdmin "admin".toList "admin12345".toList st now).2)
      CONFIG.STORAGE_KEYS.USER_DATA .null = AuthUtil.adminUser := by
    rw [hstate]
    simp only [StorageUtil.get]
    rw [storeGet_set_other _ _ _ _ (by decide), storeGet_set_self]
    simp only [jsonParse_strv]
  have htoknn : tok.isEmpty = false := by
    rw [htok]
    exact generateToken_ne_nil pay none now
  constructor
  · rw [AuthUtil.isAuthenticated, hgett]
    simp [jsTruthy, htoknn, hver]
  · rw [AuthUtil.getCurrentUser, hgett]
    simp only [jsTruthy, htoknn, hver, Bool.not_false, Bool.not_true, Bool.or_false,
      Bool.false_or, Bool.false_eq_true, if_false]
    rw [hgetu]
    rfl

/-- C1, witnessed at the empty store and clock zero. -/
theorem claim_C1_witness :
    (0 : Int) ≤ 0
  ∧ (AuthUtil.isAuthenticated
        (AuthUtil.authenticateAdmin "admin".toList "admin12345".toList [] 0).2 0 = true
  ∧ getField (AuthUtil.getCurrentUser
        (AuthUtil.authenticateAdmin "admin".toList "admin12345".toList [] 0).2 0)
      "role".toList = some (.str "admin".toList)) :=
  ⟨le_refl 0, claim_C1 [] 0 (le_refl 0)⟩

/-- C2, the claim as stated is false on the code: a store holding the
well-formed three-part token "h.e30=.s", whose payload is the empty object
and so has no expiry at all, still makes isAuthenticated return true,
because verifyToken only checks the expiry when the exp field is truthy. -/
def c2Store : Store :=
  [(CONFIG.STORAGE_KEYS.AUTH_TOKEN, strv (.str "h.e30=.s".toList))]

/-- C2, counterexample: an expiry-less token is authenticated. -/
theorem claim_C2_counterexample :
    AuthUtil.isAuthenticated c2Store 1 = true
  ∧ StorageUtil.get c2Store CONFIG.STORAGE_KEYS.AUTH_TOKEN .null
      = .str "h.e30=.s".toList
  ∧ AuthUtil.decodeToken (.str "h.e30=.s".toList) = some (.obj .nil)
  ∧ getField (.obj .nil) "exp".toList = none :=
  ⟨by decide, by decide, by decide, rfl⟩

/-- C2, amended: when isAuthenticated returns true, the stored token is a
string that decodes to a truthy payload, and any truthy numeric expiry
that payload carries is at least the current time; payloads without an
expiry (or with the falsy expiry zero) are accepted as they are. -/
theorem claim_C2 (st : Store) (now : Int)
    (hauth : AuthUtil.isAuthenticated st now = true) :
    ∃ tokStr payload,
      StorageUtil.get st CONFIG.STORAGE_KEYS.AUTH_TOKEN .null = .str tokStr
      ∧ AuthUtil.decodeToken (.str tokStr) = some payload
      ∧ jsTruthy payload = true
      ∧ ∀ e : Int, getField payload "exp".toList = some (.num e) → e ≠ 0 → now ≤ e := by
  rw [AuthUtil.isAuthenticated, Bool.and_eq_true] at hauth
  obtain ⟨htr, hv⟩ := hauth
  cases hts : StorageUtil.get st CONFIG.STORAGE_KEYS.AUTH_TOKEN .null with
  | null => rw [hts] at htr; simp [jsTruthy] at htr
  | bool b =>
      rw [hts] at hv
      simp [AuthUtil.verifyToken, AuthUtil.decodeToken] at hv
  | num n =>
      rw [hts] at hv
      simp [AuthUtil.verifyToken, AuthUtil.decodeToken] at hv
  | arr xs =>
      rw [hts] at hv
      simp [AuthUtil.verifyToken, AuthUtil.decodeToken] at hv
  | obj fs =>
      rw [hts] at hv
      simp [AuthUtil.verifyToken, AuthUtil.decodeToken] at hv
  | str s =>
      rw [hts] at hv
      cases hd : AuthUtil.decodeToken (.str s) with
      | none => rw [AuthUtil.verifyToken, hd] at hv; exact absurd hv (by simp)
      | some payload =>
          rw [AuthUtil.verifyToken, hd] at hv
          by_cases hp : jsTruthy payload = true
          · refine ⟨s, payload, rfl, hd, hp, ?_⟩
            intro e he hnz
            by_contra hcon
            push_neg at hcon
            simp only [hp, Bool.not_true, Bool.false_eq_true, if_false, he] at hv
            simp [jsTruthy, jsLtInt, hnz, hcon] at hv
          · simp only [Bool.not_eq_true] at hp
            simp [hp] at hv

/-- C2, amended claim witnessed on the expiry-less-token store. -/
theorem claim_C2_witness :
    ∃ tokStr payload,
      StorageUtil.get c2Store CONFIG.STORAGE_KEYS.AUTH_TOKEN .null = .str tokStr
      ∧ AuthUtil.decodeToken (.str tokStr) = some payload
      ∧ jsTruthy payload = true
      ∧ ∀ e : Int, getField payload "exp".toList = some (.num e) → e ≠ 0 → 1 ≤ e :=
  claim_C2 c2Store 1 (by decide)

/-- C3, the claim as stated is false on the code: a token whose decoded
payload carries the expiry 0 — a timestamp strictly earlier than the
current time 1 — still verifies, because 0 is falsy and the expiry check
is skipped. -/
def c3token : List Char :=
  "h.".toList ++ btoa (strv (.obj (.cons "exp".toList (.num 0) .nil))) ++ ".s".toList

/-- C3, counterexample: expiry 0 lies in the past at time 1, yet
verifyToken accepts. -/
theorem claim_C3_counterexample :
    AuthUtil.decodeToken (.str c3token)
      = some (.obj (.cons "exp".toList (.num 0) .nil))
  ∧ (0 : Int) < 1
  ∧ AuthUtil.verifyToken (.str c3token) 1 = true :=
  ⟨by decide, by decide, by decide⟩

/-- C3, amended: for every token string whose decoded payload has a truthy
(nonzero) numeric expiry strictly earlier than the current time,
verifyToken returns false, regardless of the rest of the payload and of
the header and signature segments. -/
theorem claim_C3 (token : List Char) (now : Int) (payload : JsValue) (e : Int)
    (hdec : AuthUtil.decodeToken (.str token) = some payload)
    (hexp : getField payload "exp".toList = some (.num e))
    (hnz : e ≠ 0) (hlt : e < now) :
    AuthUtil.verifyToken (.str token) now = false := by
  have htr : jsTruthy payload = true := by
    cases payload <;> simp [getField, jsTruthy] at hexp ⊢
  rw [AuthUtil.verifyToken, hdec]
  have h1 : jsTruthy (.num e) = true := by simp [jsTruthy, hnz]
  have h2 : jsLtInt (.num e) now = true := by simp [jsLtInt, hlt]
  simp only [htr, Bool.not_true, Bool.false_eq_true, if_false, hexp, h1, h2,
    Bool.and_self, if_true]

/-- C3, amended claim witnessed: a token with expiry -5 fails to verify at
time 0. -/
theorem claim_C3_witness :
    AuthUtil.verifyToken
      (.str ("h.".toList ++ btoa (strv (.obj (.cons "exp".toList (.num (-5)) .nil)))
        ++ ".s".toList)) 0 = false :=
  claim_C3 _ 0 (.obj (.cons "exp".toList (.num (-5)) .nil)) (-5)
    (by decide) (by decide) (by decide) (by decide)

/-- logout removes the token, the user data, the session record and the
remember-me flag. -/
theorem logout_clears (st : Store) :
    storeGet (AuthUtil.logout st).2 CONFIG.STORAGE_KEYS.AUTH_TOKEN = none
  ∧ storeGet (AuthUtil.logout st).2 CONFIG.STORAGE_KEYS.USER_DATA = none
  ∧ storeGet (AuthUtil.logout st).2 CONFIG.STORAGE_KEYS.ADMIN_SESSION = none
  ∧ storeGet (AuthUtil.logout st).2 CONFIG.STORAGE_KEYS.REMEMBER_ME = none := by
  simp only [AuthUtil.logout, StorageUtil.remove]
  refine ⟨?_, ?_, ?_, ?_⟩
  · rw [storeGet_remove_other _ _ _ (by decide), storeGet_remove_other _ _ _ (by decide),
      storeGet_remove_other _ _ _ (by decide), storeGet_remove_self]
  · rw [storeGet_remove_other _ _ _ (by decide), storeGet_remove_other _ _ _ (by decide),
      storeGet_remove_self]
  · rw [storeGet_remove_other _ _ _ (by decide), storeGet_remove_self]
  · rw [storeGet_remove_self]

/-- C6.  When a session check tick runs while authenticated and the
inactivity since the session's lastActivity has reached the configured
timeout, the tick clears the stored token, user data, session record and
remember-me flag, and isAuthenticated is false afterwards — whatever the
user answers to a pending warning dialog. -/
theorem claim_C6 (st : Store) (now la : Int) (confirmStay : Bool)
    (hauth : AuthUtil.isAuthenticated st now = true)
    (hla : getField (StorageUtil.get st CONFIG.STORAGE_KEYS.ADMIN_SESSION .null)
      "lastActivity".toList = some (.num la))
    (htimeout : CONFIG.SESSION.TIMEOUT ≤ now - la) :
    storeGet (AuthUtil.sessionCheck st now confirmStay)
        CONFIG.STORAGE_KEYS.AUTH_TOKEN = none
  ∧ storeGet (AuthUtil.sessionCheck st now confirmStay)
        CONFIG.STORAGE_KEYS.USER_DATA = none
  ∧ storeGet (AuthUtil.sessionCheck st now confirmStay)
        CONFIG.STORAGE_KEYS.ADMIN_SESSION = none
  ∧ storeGet (AuthUtil.sessionCheck st now confirmStay)
        CONFIG.STORAGE_KEYS.REMEMBER_ME = none
  ∧ AuthUtil.isAuthenticated (AuthUtil.sessionCheck st now confirmStay) now = false := by
  have hsess : jsTruthy (StorageUtil.get st CONFIG.STORAGE_KEYS.ADMIN_SESSION .null)
      = true := by
    cases h : StorageUtil.get st CONFIG.STORAGE_KEYS.ADMIN_SESSION .null <;>
      rw [h] at hla <;> simp [getField] at hla <;> simp [jsTruthy]
  have hin : AuthUtil.sessionInactive
      (StorageUtil.get st CONFIG.STORAGE_KEYS.ADMIN_SESSION .null) now
      = some (now - la) := by
    rw [AuthUtil.sessionInactive, hla]
  have hgo : AuthUtil.geOpt (some (now - la)) CONFIG.SESSION.TIMEOUT = true := by
    simp [AuthUtil.geOpt, htimeout]
  have hred : AuthUtil.sessionCheck st now confirmStay
      = (AuthUtil.logout
          (if AuthUtil.geOpt (some (now - la))
                (CONFIG.SESSION.TIMEOUT - CONFIG.SESSION.WARNING_TIME)
              && !fieldTruthy
                  (StorageUtil.get st CONFIG.STORAGE_KEYS.ADMIN_SESSION .null)
                  "warningShown".toList then
            (StorageUtil.set
              (if confirmStay then AuthUtil.updateActivity st now else st)
              CONFIG.STORAGE_KEYS.ADMIN_SESSION
              (jsSetField (StorageUtil.get st CONFIG.STORAGE_KEYS.ADMIN_SESSION .null)
                "warningShown".toList (.bool true))).2
          else st)).2 := by
    rw [AuthUtil.sessionCheck]
    simp only [hauth, Bool.not_true, Bool.false_eq_true, if_false, hsess, hin, hgo,
      if_true]
  rw [hred]
  have hfin : ∀ s1 : Store,
      AuthUtil.isAuthenticated (AuthUtil.logout s1).2 now = false := by
    intro s1
    have h1 := (logout_clears s1).1
    rw [AuthUtil.isAuthenticated]
    simp only [StorageUtil.get, h1]
    simp [jsTruthy]
  exact ⟨(logout_clears _).1, (logout_clears _).2.1, (logout_clears _).2.2.1,
    (logout_clears _).2.2.2, hfin _⟩

/-- The store of the C6 witness: an expiry-less (hence still verifying)
token and a session whose lastActivity is the epoch. -/
def c6Store : Store :=
  [(CONFIG.STORAGE_KEYS.AUTH_TOKEN, strv (.str "h.e30=.s".toList)),
   (CONFIG.STORAGE_KEYS.ADMIN_SESSION,
     strv (.obj (.cons "lastActivity".toList (.num 0) .nil)))]

/-- C6, witnessed: exactly at the timeout, the tick clears everything. -/
theorem claim_C6_witness :
    storeGet (AuthUtil.sessionCheck c6Store 1800000 false)
        CONFIG.STORAGE_KEYS.AUTH_TOKEN = none
  ∧ storeGet (AuthUtil.sessionCheck c6Store 1800000 false)
        CONFIG.STORAGE_KEYS.USER_DATA = none
  ∧ storeGet (AuthUtil.sessionCheck c6Store 1800000 false)
        CONFIG.STORAGE_KEYS.ADMIN_SESSION = none
  ∧ storeGet (AuthUtil.sessionCheck c6Store 1800000 false)
        CONFIG.STORAGE_KEYS.REMEMBER_ME = none
  ∧ AuthUtil.isAuthenticated (AuthUtil.sessionCheck c6Store 1800000 false) 1800000
      = false :=
  claim_C6 c6Store 1800000 0 false (by decide) (by decide) (by decide)

/-- C8, the claim as stated is false on the code: the pair hardcoded in
authenticateAdmin and the CONFIG.ADMIN pair checked by loginLocalStorage
are the same ('admin', 'admin12345'), and that pair is accepted as admin
by both paths. -/
theorem claim_C8_counterexample :
    ("admin".toList, "admin12345".toList)
      = (CONFIG.ADMIN.USERNAME, CONFIG.ADMIN.PASSWORD)
  ∧ (AuthUtil.authenticateAdmin "admin".toList "admin12345".toList [] 0).1.success
      = true
  ∧ (AuthUtil.loginLocalStorage "admin".toList "admin12345".toList false [] 0
      []).1.success = true :=
  ⟨by decide, by decide, by decide⟩

/-- C8, amended: the two login code paths agree on admin credentials — the
hardcoded pair of authenticateAdmin equals CONFIG.ADMIN's pair, and with
no stored user list the pure-local path succeeds exactly when
authenticateAdmin succeeds, for every credential pair. -/
theorem claim_C8 (username password : List Char) (rememberMe : Bool)
    (st : Store) (now : Int) (nowIso : List Char)
    (husers : storeGet st CONFIG.STORAGE_KEYS.USERS = none) :
    ((AuthUtil.authenticateAdmin username password st now).1.success = true
      ↔ (AuthUtil.loginLocalStorage username password rememberMe st now
          nowIso).1.success = true)
  ∧ ("admin".toList, "admin12345".toList)
      = (CONFIG.ADMIN.USERNAME, CONFIG.ADMIN.PASSWORD) := by
  refine ⟨?_, by decide⟩
  have hu : StorageUtil.get st CONFIG.STORAGE_KEYS.USERS (.arr .nil) = .arr .nil := by
    simp [StorageUtil.get, husers]
  by_cases hc : username = "admin".toList ∧ password = "admin12345".toList
  · rw [AuthUtil.authenticateAdmin, if_pos hc, AuthUtil.loginLocalStorage,
      if_pos (by simpa [CONFIG.ADMIN.USERNAME, CONFIG.ADMIN.PASSWORD] using hc)]
  · rw [AuthUtil.authenticateAdmin, if_neg hc, AuthUtil.loginLocalStorage,
      if_neg (by simpa [CONFIG.ADMIN.USERNAME, CONFIG.ADMIN.PASSWORD] using hc)]
    rw [hu]
    simp [AuthUtil.findUser]

/-- C8, amended claim witnessed at a rejected pair on the empty store. -/
theorem claim_C8_witness :
    ((AuthUtil.authenticateAdmin "guest".toList "pw".toList [] 0).1.success = true
      ↔ (AuthUtil.loginLocalStorage "guest".toList "pw".toList false [] 0
          []).1.success = true)
  ∧ ("admin".toList, "admin12345".toList)
      = (CONFIG.ADMIN.USERNAME, CONFIG.ADMIN.PASSWORD) :=
  claim_C8 "guest".toList "pw".toList false [] 0 [] (by rfl)

/-- The errors validateForm should record, stated from the claim's words:
one entry per declared field whose first failing rule exists, keyed by the
field and carrying that rule's message, in declaration order. -/
def declaredErrors (data : List (List Char × JsValue))
    (rules : List (List Char × List ValidationUtil.FieldRule)) :
    List (List Char × List Char) :=
  rules.filterMap (fun p =>
    (ValidationUtil.firstFieldError p.1 (ValidationUtil.lookupData data p.1) p.2).map
      (fun m => (p.1, m)))

/-- The validateForm loop computes exactly the declared errors, with the
flag clear iff some error was recorded along the way. -/
theorem validateFormAux_spec (data : List (List Char × JsValue)) :
    ∀ (rs : List (List Char × List ValidationUtil.FieldRule)) (valid : Bool)
      (errs : List (List Char × List Char)),
    ValidationUtil.validateFormAux data rs valid errs
      = ⟨valid && (declaredErrors data rs).isEmpty, errs ++ declaredErrors data rs⟩
  | [], valid, errs => by
      simp [ValidationUtil.validateFormAux, declaredErrors]
  | (field, frs) :: rest, valid, errs => by
      cases h : ValidationUtil.firstFieldError field
          (ValidationUtil.lookupData data field) frs with
      | none =>
          simp only [ValidationUtil.validateFormAux, h]
          rw [validateFormAux_spec data rest valid errs]
          simp [declaredErrors, h]
      | some m =>
          simp only [ValidationUtil.validateFormAux, h]
          rw [validateFormAux_spec data rest false (errs ++ [(field, m)])]
          simp [declaredErrors, h]

/-- The declared error keys are a sublist of the declared field keys. -/
theorem declaredErrors_keys_sublist (data : List (List Char × JsValue)) :
    ∀ rules, ((declaredErrors data rules).map Prod.fst).Sublist
      (rules.map Prod.fst)
  | [] => by simp [declaredErrors]
  | (field, frs) :: rest => by
      have ih := declaredErrors_keys_sublist data rest
      cases h : ValidationUtil.firstFieldError field
          (ValidationUtil.lookupData data field) frs with
      | none =>
          simp only [declaredErrors, List.filterMap_cons, h, Option.map_none,
            List.map_cons]
          exact ih.cons _
      | some m =>
          simp only [declaredErrors, List.filterMap_cons, h, Option.map_some,
            List.map_cons]
          exact ih.cons₂ _

/-- With unique keys, an association list determines values. -/
theorem nodup_keys_eq {α β : Type} [DecidableEq α] :
    ∀ (l : List (α × β)), (l.map Prod.fst).Nodup →
    ∀ {k : α} {a b : β}, (k, a) ∈ l → (k, b) ∈ l → a = b
  | [], _, _, _, _, ha, _ => by simp at ha
  | (k0, v0) :: t, hnd, k, a, b, ha, hb => by
      simp only [List.map_cons, List.nodup_cons] at hnd
      rcases List.mem_cons.mp ha with h1 | h1 <;>
        rcases List.mem_cons.mp hb with h2 | h2
      · cases h1; cases h2; rfl
      · cases h1
        exact absurd (List.mem_map.mpr ⟨(k0, b), h2, rfl⟩) hnd.1
      · cases h2
        exact absurd (List.mem_map.mpr ⟨(k0, a), h1, rfl⟩) hnd.1
      · exact nodup_keys_eq t hnd.2 h1 h2

/-- C9.  validateForm walks the declared fields in order, stops at each
field's first failing rule, records exactly one message per failing field
and none for a field whose rules all pass, and its flag is set iff no
field failed. -/
theorem claim_C9 (data : List (List Char × JsValue))
    (rules : List (List Char × List ValidationUtil.FieldRule))
    (hnd : (rules.map Prod.fst).Nodup) :
    (ValidationUtil.validateForm data rules).errors = declaredErrors data rules
  ∧ ((ValidationUtil.validateForm data rules).isValid = true
      ↔ (ValidationUtil.validateForm data rules).errors = [])
  ∧ ((ValidationUtil.validateForm data rules).errors.map Prod.fst).Nodup
  ∧ (∀ field frs, (field, frs) ∈ rules →
      ValidationUtil.firstFieldError field (ValidationUtil.lookupData data field) frs
        = none →
      ∀ m, (field, m) ∉ (ValidationUtil.validateForm data rules).errors)
  ∧ (∀ field frs m, (field, frs) ∈ rules →
      ValidationUtil.firstFieldError field (ValidationUtil.lookupData data field) frs
        = some m →
      (field, m) ∈ (ValidationUtil.validateForm data rules).errors) := by
  have hspec := validateFormAux_spec data rules true []
  have herr : (ValidationUtil.validateForm data rules).errors
      = declaredErrors data rules := by
    rw [ValidationUtil.validateForm, hspec]
    simp
  have hval : (ValidationUtil.validateForm data rules).isValid
      = (declaredErrors data rules).isEmpty := by
    rw [ValidationUtil.validateForm, hspec]
    simp
  refine ⟨herr, ?_, ?_, ?_, ?_⟩
  · rw [hval, herr, List.isEmpty_iff]
  · rw [herr]
    exact (declaredErrors_keys_sublist data rules).nodup hnd
  · intro field frs hmem hnone m hin
    rw [herr] at hin
    obtain ⟨p, hp, hpe⟩ := List.mem_filterMap.mp hin
    rcases hfe : ValidationUtil.firstFieldError p.1
        (ValidationUtil.lookupData data p.1) p.2 with _ | m'
    · rw [hfe] at hpe
      simp at hpe
    · rw [hfe] at hpe
      simp only [Option.map_some', Option.some.injEq, Prod.mk.injEq] at hpe
      obtain ⟨hk, hm⟩ := hpe
      obtain ⟨pf, ps⟩ := p
      simp only at hk hfe
      subst hk
      have := nodup_keys_eq rules hnd hp hmem
      subst this
      rw [hfe] at hnone
      exact absurd hnone (by simp)
  · intro field frs m hmem hsome
    rw [herr]
    exact List.mem_filterMap.mpr ⟨(field, frs), hmem, by simp [hsome]⟩

/-- The rule set of the C9 witness: one field with a required rule then an
email rule. -/
def c9rules : List (List Char × List ValidationUtil.FieldRule) :=
  [("name".toList,
    [ValidationUtil.FieldRule.mk .required none,
     ValidationUtil.FieldRule.mk .email none])]

/-- C9, witnessed: a required field missing from the data yields exactly
the declared error list, with the flag matching its emptiness. -/
theorem claim_C9_witness :
    (c9rules.map Prod.fst).Nodup
  ∧ ((ValidationUtil.validateForm [] c9rules).errors = declaredErrors [] c9rules
  ∧ ((ValidationUtil.validateForm [] c9rules).isValid = true
      ↔ (ValidationUtil.validateForm [] c9rules).errors = [])) := by
  refine ⟨by decide, ?_⟩
  have h := claim_C9 [] c9rules (by decide)
  exact ⟨h.1, h.2.1⟩
